import Mathlib

set_option maxHeartbeats 1000000
set_option maxRecDepth 100000

/-!
Verification of the analysis core of the trainingpeaks-mcp repository:
the sliding-window best-power engine, the power-duration curve, the
aerobic-decoupling calculator, the byte-budgeted LRU file cache, and the
cross-workout interval comparison.  Sample values (watts, bpm) are modelled
as integers; the quantities the code derives by division (averages, ratios,
percentages) are modelled as rationals.
-/

/-- JavaScript `Math.round`: nearest integer, ties toward positive infinity. -/
def jsRound (q : ℚ) : ℤ := ⌊q + 1 / 2⌋

/-- Sum of the contiguous window of `d` samples starting at index `start`
(reads past the end contribute 0, as `stream[i] ?? 0` does). -/
def winSum (s : List ℤ) (start d : ℕ) : ℤ := ((s.drop start).take d).sum

/-- Result shape of `computeBestPower` in `src/mcp/tools/power.ts`. -/
structure BestPower where
  bestPower : ℤ
  startIndex : ℕ
  deriving DecidableEq, Repr

/-- One iteration of the sliding-window loop of `computeBestPower`:
`windowSum += stream[i] - stream[i - d]`, then update the running best
only on strict improvement (`windowSum > bestSum`). -/
def bpStep (s : List ℤ) (d : ℕ) (acc : ℤ × ℤ × ℕ) (i : ℕ) : ℤ × ℤ × ℕ :=
  let w := acc.1 + s.getD i 0 - s.getD (i - d) 0
  if acc.2.1 < w then (w, w, i - d + 1) else (w, acc.2.1, acc.2.2)

/-- `computeBestPower(powerStream, durationSeconds)` from
`src/mcp/tools/power.ts`: `null` when the duration exceeds the stream
length, otherwise the sliding-window maximum sum with first-index
tie-breaking, returned as the rounded window average and start index. -/
def computeBestPower (s : List ℤ) (d : ℕ) : Option BestPower :=
  if s.length < d then none
  else
    let w0 := (s.take d).sum
    let r := (List.range' d (s.length - d)).foldl (bpStep s d) (w0, w0, 0)
    some ⟨jsRound ((r.2.1 : ℚ) / (d : ℚ)), r.2.2⟩

/-- State of the sliding-window loop after the windows starting at
`0, 1, …, m` have all been examined. -/
def bpLoop (s : List ℤ) (d : ℕ) : ℕ → ℤ × ℤ × ℕ
  | 0 => ((s.take d).sum, (s.take d).sum, 0)
  | m + 1 => bpStep s d (bpLoop s d m) (d + m)

theorem winSum_eq_sum (s : List ℤ) (m d : ℕ) :
    winSum s m d = ∑ i ∈ Finset.range d, s.getD (m + i) 0 := by
  induction d with
  | zero => simp [winSum]
  | succ n ih =>
    rw [Finset.sum_range_succ, ← ih]
    unfold winSum
    rw [List.take_succ, List.sum_append, List.getElem?_drop,
      List.getD_eq_getElem?_getD]
    cases s[m + n]? <;> simp

theorem winSum_slide (s : List ℤ) (m d : ℕ) :
    winSum s (m + 1) d = winSum s m d + s.getD (m + d) 0 - s.getD m 0 := by
  have h1 := Finset.sum_range_succ (fun i => s.getD (m + i) 0) d
  have h2 : ∑ i ∈ Finset.range (d + 1), s.getD (m + i) 0
      = ∑ i ∈ Finset.range d, s.getD (m + 1 + i) 0 + s.getD m 0 := by
    rw [Finset.sum_range_succ' (fun i => s.getD (m + i) 0) d]
    congr 1
    exact Finset.sum_congr rfl fun i _ => by rw [show m + (i + 1) = m + 1 + i by omega]
  rw [winSum_eq_sum, winSum_eq_sum]
  linarith [h1, h2]

theorem winSum_zero_start (s : List ℤ) (d : ℕ) : winSum s 0 d = (s.take d).sum := by
  simp [winSum]

/-- Loop invariant of the sliding-window search: the running window sum is
the sum of the current window, the best is the sum of the window at the
recorded start, that sum dominates all windows examined so far, and every
strictly earlier window has a strictly smaller sum. -/
theorem bpLoop_inv (s : List ℤ) (d m : ℕ) :
    (bpLoop s d m).1 = winSum s m d ∧
    (bpLoop s d m).2.2 ≤ m ∧
    (bpLoop s d m).2.1 = winSum s (bpLoop s d m).2.2 d ∧
    (∀ j, j ≤ m → winSum s j d ≤ (bpLoop s d m).2.1) ∧
    (∀ j, j < (bpLoop s d m).2.2 → winSum s j d < (bpLoop s d m).2.1) := by
  induction m with
  | zero =>
    refine ⟨by simp [bpLoop, winSum], Nat.le_refl 0, by simp [bpLoop, winSum], ?_, ?_⟩
    · intro j hj
      interval_cases j
      simp [bpLoop, winSum]
    · intro j hj
      exact absurd hj (by simp [bpLoop])
  | succ m ih =>
    obtain ⟨hw, hst, hb, hmax, hfirst⟩ := ih
    have hsucc : bpLoop s d (m + 1) = bpStep s d (bpLoop s d m) (d + m) := rfl
    have hidx : d + m - d = m := by omega
    have hstart : d + m - d + 1 = m + 1 := by omega
    have hnew : (bpLoop s d m).1 + s.getD (d + m) 0 - s.getD (d + m - d) 0
        = winSum s (m + 1) d := by
      rw [hidx, hw, winSum_slide, Nat.add_comm m d]
    by_cases hlt : (bpLoop s d m).2.1
        < (bpLoop s d m).1 + s.getD (d + m) 0 - s.getD (d + m - d) 0
    · have hres : bpLoop s d (m + 1)
          = (winSum s (m + 1) d, winSum s (m + 1) d, m + 1) := by
        rw [hsucc]
        simp only [bpStep]
        rw [if_pos hlt, hnew, hstart]
      rw [hres]
      refine ⟨rfl, le_refl _, rfl, ?_, ?_⟩
      · intro j hj
        have hj2 : j ≤ m + 1 := hj
        show winSum s j d ≤ winSum s (m + 1) d
        rcases Nat.lt_or_ge j (m + 1) with hj' | hj'
        · exact le_of_lt (lt_of_le_of_lt (hmax j (by omega)) (hnew ▸ hlt))
        · have hjeq : j = m + 1 := by omega
          rw [hjeq]
      · intro j hj
        have hj2 : j < m + 1 := hj
        show winSum s j d < winSum s (m + 1) d
        exact lt_of_le_of_lt (hmax j (by omega)) (hnew ▸ hlt)
    · have hres : bpLoop s d (m + 1)
          = (winSum s (m + 1) d, (bpLoop s d m).2.1, (bpLoop s d m).2.2) := by
        rw [hsucc]
        simp only [bpStep]
        rw [if_neg hlt, hnew]
      rw [hres]
      refine ⟨rfl, Nat.le_succ_of_le hst, hb, ?_, hfirst⟩
      intro j hj
      have hj2 : j ≤ m + 1 := hj
      show winSum s j d ≤ (bpLoop s d m).2.1
      rcases Nat.lt_or_ge j (m + 1) with hj' | hj'
      · exact hmax j (by omega)
      · have hjeq : j = m + 1 := by omega
        rw [hjeq, ← hnew]
        exact le_of_not_lt hlt

theorem foldl_bpStep_eq (s : List ℤ) (d : ℕ) (n : ℕ) :
    (List.range' d n).foldl (bpStep s d) ((s.take d).sum, (s.take d).sum, 0)
      = bpLoop s d n := by
  induction n with
  | zero => rfl
  | succ n ih =>
    rw [List.range'_concat, List.foldl_append, ih]
    simp [bpLoop, Nat.one_mul]

/-- C1: for every power sample stream and window length `d` with
`1 ≤ d ≤ length(stream)`, `computeBestPower` returns the rounded average of
the maximum window sum over all contiguous windows of exactly `d` samples,
whose start index is the earliest index achieving that maximum (later equal
sums never replace it); for `d > length(stream)` it returns `null`. -/
theorem claim_C1 (s : List ℤ) (d : ℕ) (hd : 1 ≤ d) :
    (∀ _ : d ≤ s.length, ∃ r, computeBestPower s d = some r ∧
      r.startIndex + d ≤ s.length ∧
      r.bestPower = jsRound ((winSum s r.startIndex d : ℚ) / (d : ℚ)) ∧
      (∀ j, j + d ≤ s.length → winSum s j d ≤ winSum s r.startIndex d) ∧
      (∀ j, j < r.startIndex → winSum s j d < winSum s r.startIndex d)) ∧
    (s.length < d → computeBestPower s d = none) := by
  constructor
  · intro hlen
    have hnot : ¬ s.length < d := by omega
    obtain ⟨hw, hst, hb, hmax, hfirst⟩ := bpLoop_inv s d (s.length - d)
    refine ⟨⟨jsRound (((bpLoop s d (s.length - d)).2.1 : ℚ) / (d : ℚ)),
      (bpLoop s d (s.length - d)).2.2⟩, ?_, ?_, ?_, ?_, ?_⟩
    · unfold computeBestPower
      rw [if_neg hnot]
      simp only [foldl_bpStep_eq]
    · show (bpLoop s d (s.length - d)).2.2 + d ≤ s.length
      omega
    · show jsRound _ = jsRound _
      rw [hb]
    · intro j hj
      rw [← hb]
      exact hmax j (by omega)
    · intro j hj
      rw [← hb]
      exact hfirst j hj
  · intro hlen
    unfold computeBestPower
    rw [if_pos hlen]

/-- Witness for C1 on the spec's own example stream with `d = 3`. -/
theorem claim_C1_witness :
    1 ≤ 3 ∧
    ((∀ _ : 3 ≤ ([100, 100, 100, 200, 300, 400, 300, 200, 100, 100] : List ℤ).length,
      ∃ r, computeBestPower [100, 100, 100, 200, 300, 400, 300, 200, 100, 100] 3 = some r ∧
        r.startIndex + 3 ≤ ([100, 100, 100, 200, 300, 400, 300, 200, 100, 100] : List ℤ).length ∧
        r.bestPower = jsRound
          ((winSum [100, 100, 100, 200, 300, 400, 300, 200, 100, 100] r.startIndex 3 : ℚ) / (3 : ℚ)) ∧
        (∀ j, j + 3 ≤ ([100, 100, 100, 200, 300, 400, 300, 200, 100, 100] : List ℤ).length →
          winSum [100, 100, 100, 200, 300, 400, 300, 200, 100, 100] j 3 ≤
            winSum [100, 100, 100, 200, 300, 400, 300, 200, 100, 100] r.startIndex 3) ∧
        (∀ j, j < r.startIndex →
          winSum [100, 100, 100, 200, 300, 400, 300, 200, 100, 100] j 3 <
            winSum [100, 100, 100, 200, 300, 400, 300, 200, 100, 100] r.startIndex 3)) ∧
      (([100, 100, 100, 200, 300, 400, 300, 200, 100, 100] : List ℤ).length < 3 →
        computeBestPower [100, 100, 100, 200, 300, 400, 300, 200, 100, 100] 3 = none)) :=
  ⟨by decide, claim_C1 [100, 100, 100, 200, 300, 400, 300, 200, 100, 100] 3 (by decide)⟩

/-- A lemma form of the non-null branch of `computeBestPower`. -/
theorem computeBestPower_eq_loop (s : List ℤ) (d : ℕ) (h : ¬ s.length < d) :
    computeBestPower s d =
      some ⟨jsRound (((bpLoop s d (s.length - d)).2.1 : ℚ) / (d : ℚ)),
        (bpLoop s d (s.length - d)).2.2⟩ := by
  unfold computeBestPower
  rw [if_neg h]
  simp only [foldl_bpStep_eq]

theorem computeBestPower_isSome_iff (s : List ℤ) (d : ℕ) :
    (computeBestPower s d).isSome ↔ d ≤ s.length := by
  by_cases h : s.length < d
  · unfold computeBestPower
    rw [if_pos h]
    simp
    omega
  · rw [computeBestPower_eq_loop s d h]
    simp
    omega

-- --- Power-duration curve (`buildPowerDurationCurve` in src/mcp/tools/power.ts) ---

/-- The fields of a workout summary that the curve builder reads. -/
structure WorkoutSummary where
  workoutId : ℕ
  workoutDay : Option String
  title : Option String
  deriving DecidableEq, Repr

/-- One point of the returned power-duration curve. -/
structure CurvePoint where
  durationSeconds : ℕ
  durationLabel : String
  bestPowerWatts : ℤ
  workoutId : ℕ
  workoutDate : Option String
  workoutTitle : Option String
  deriving DecidableEq, Repr

/-- `formatDuration` from `src/mcp/tools/power.ts`. -/
def formatDuration (seconds : ℕ) : String :=
  if seconds < 60 then toString seconds ++ "s"
  else
    let mins := seconds / 60
    let secs := seconds % 60
    if secs = 0 then toString mins ++ "min"
    else toString mins ++ "min " ++ toString secs ++ "s"

/-- Body of the per-duration search over analysed workouts: a candidate
replaces the running best only on strict improvement (`>`), starting from
`bestPower = -1`, `bestWorkout = null`. -/
def curveStep (d : ℕ) (acc : ℤ × Option WorkoutSummary)
    (ws : WorkoutSummary × List ℤ) : ℤ × Option WorkoutSummary :=
  match computeBestPower ws.2 d with
  | some r => if acc.1 < r.bestPower then (r.bestPower, some ws.1) else acc
  | none => acc

def curveBest (streams : List (WorkoutSummary × List ℤ)) (d : ℕ) :
    ℤ × Option WorkoutSummary :=
  streams.foldl (curveStep d) (-1, none)

/-- The curve point for one requested duration; `none` mirrors the
`if (!bestWorkout || bestPower < 0) return null` branch. -/
def curvePointFor (streams : List (WorkoutSummary × List ℤ)) (d : ℕ) :
    Option CurvePoint :=
  match (curveBest streams d).2 with
  | none => none
  | some w =>
    if (curveBest streams d).1 < 0 then none
    else some ⟨d, formatDuration d, (curveBest streams d).1,
      w.workoutId, w.workoutDay, w.title⟩

/-- The pure core of `buildPowerDurationCurve`: sort the requested durations
ascending, compute the best point per duration over the analysed streams,
drop the `null` entries. -/
def buildCurve (streams : List (WorkoutSummary × List ℤ)) (durations : List ℕ) :
    List CurvePoint :=
  (durations.insertionSort (· ≤ ·)).filterMap (curvePointFor streams)

theorem curvePointFor_duration (streams : List (WorkoutSummary × List ℤ))
    (d : ℕ) (p : CurvePoint) (h : curvePointFor streams d = some p) :
    p.durationSeconds = d := by
  unfold curvePointFor at h
  split at h
  · exact absurd h (by simp)
  · split at h
    · exact absurd h (by simp)
    · cases h
      rfl

theorem map_filterMap_sublist {α β : Type} (g : α → Option β) (h : β → α)
    (hg : ∀ a b, g a = some b → h b = a) (l : List α) :
    ((l.filterMap g).map h).Sublist l := by
  induction l with
  | nil => simp
  | cons a l ih =>
    cases hga : g a with
    | none =>
      rw [List.filterMap_cons_none hga]
      exact ih.cons a
    | some b =>
      rw [List.filterMap_cons_some hga, List.map_cons, hg a b hga]
      exact ih.cons₂ a

theorem curveBest_aux (d : ℕ) (l : List (WorkoutSummary × List ℤ))
    (acc : ℤ × Option WorkoutSummary) (h : (l.foldl (curveStep d) acc).2.isSome) :
    acc.2.isSome ∨ ∃ ws ∈ l, (computeBestPower ws.2 d).isSome := by
  induction l generalizing acc with
  | nil => exact Or.inl h
  | cons ws l ih =>
    cases hc : computeBestPower ws.2 d with
    | some r =>
      exact Or.inr ⟨ws, List.mem_cons_self ws l, by rw [hc]; rfl⟩
    | none =>
      have hstep : curveStep d acc ws = acc := by
        unfold curveStep
        rw [hc]
      rw [List.foldl_cons, hstep] at h
      rcases ih acc h with h' | ⟨ws', hmem, hsome⟩
      · exact Or.inl h'
      · exact Or.inr ⟨ws', List.mem_cons_of_mem ws hmem, hsome⟩

/-- Fixed workout used in concrete examples. -/
def sampleWorkout : WorkoutSummary :=
  ⟨42, some "2024-01-15", some "Morning Ride"⟩

/-- Concrete evaluation of the curve on one 30-sample constant-100 W workout
with request order `[30, 5, 15]`. -/
theorem buildCurve_sample :
    buildCurve [(sampleWorkout, List.replicate 30 100)] [30, 5, 15] =
      [⟨5, formatDuration 5, 100, 42, some "2024-01-15", some "Morning Ride"⟩,
       ⟨15, formatDuration 15, 100, 42, some "2024-01-15", some "Morning Ride"⟩,
       ⟨30, formatDuration 30, 100, 42, some "2024-01-15", some "Morning Ride"⟩] := by
  have hlen : (List.replicate 30 (100 : ℤ)).length = 30 := by simp
  have hcbp : ∀ d : ℕ, ¬ (List.replicate 30 (100 : ℤ)).length < d →
      computeBestPower (List.replicate 30 (100 : ℤ)) d =
        some ⟨jsRound (((bpLoop (List.replicate 30 (100 : ℤ)) d (30 - d)).2.1 : ℚ) / (d : ℚ)),
          (bpLoop (List.replicate 30 (100 : ℤ)) d (30 - d)).2.2⟩ := by
    intro d hd
    rw [computeBestPower_eq_loop _ _ hd, hlen]
  have h5 : computeBestPower (List.replicate 30 (100 : ℤ)) 5 = some ⟨100, 0⟩ := by
    rw [hcbp 5 (by decide)]
    have : (bpLoop (List.replicate 30 (100 : ℤ)) 5 25) = (500, 500, 0) := by decide
    rw [this]
    norm_num [jsRound]
  have h15 : computeBestPower (List.replicate 30 (100 : ℤ)) 15 = some ⟨100, 0⟩ := by
    rw [hcbp 15 (by decide)]
    have : (bpLoop (List.replicate 30 (100 : ℤ)) 15 15) = (1500, 1500, 0) := by decide
    rw [this]
    norm_num [jsRound]
  have h30 : computeBestPower (List.replicate 30 (100 : ℤ)) 30 = some ⟨100, 0⟩ := by
    rw [hcbp 30 (by decide)]
    have : (bpLoop (List.replicate 30 (100 : ℤ)) 30 0) = (3000, 3000, 0) := by decide
    rw [this]
    norm_num [jsRound]
  have hsort : (List.insertionSort (· ≤ ·) [30, 5, 15] : List ℕ) = [5, 15, 30] := by decide
  unfold buildCurve
  rw [hsort]
  have hpt : ∀ d ∈ [5, 15, 30], curvePointFor [(sampleWorkout, List.replicate 30 100)] d =
      some ⟨d, formatDuration d, 100, 42, some "2024-01-15", some "Morning Ride"⟩ := by
    intro d hd
    have hbest : curveBest [(sampleWorkout, List.replicate 30 100)] d = (100, some sampleWorkout) := by
      unfold curveBest
      rw [List.foldl_cons, List.foldl_nil]
      unfold curveStep
      fin_cases hd
      · rw [h5]; norm_num
      · rw [h15]; norm_num
      · rw [h30]; norm_num
    unfold curvePointFor
    rw [hbest]
    norm_num [sampleWorkout]
  rw [List.filterMap_cons_some (hpt 5 (by decide)),
    List.filterMap_cons_some (hpt 15 (by decide)),
    List.filterMap_cons_some (hpt 30 (by decide))]
  simp

/-- C9: `buildPowerDurationCurve` returns curve points sorted ascending in
`durationSeconds` regardless of request order (durations `[30, 5, 15]` come
back ordered `[5, 15, 30]`), and a requested duration for which no analysed
workout has enough samples is omitted from the curve entirely (every point
on the curve has a workout with at least that many samples). -/
theorem claim_C9 :
    (∀ (streams : List (WorkoutSummary × List ℤ)) (durations : List ℕ),
      ((buildCurve streams durations).map (fun p => p.durationSeconds)).Pairwise (· ≤ ·)) ∧
    (∀ (streams : List (WorkoutSummary × List ℤ)) (durations : List ℕ)
      (p : CurvePoint), p ∈ buildCurve streams durations →
      ∃ ws ∈ streams, p.durationSeconds ≤ ws.2.length) ∧
    ((buildCurve [(sampleWorkout, List.replicate 30 100)] [30, 5, 15]).map
      (fun p => p.durationSeconds) = [5, 15, 30]) := by
  refine ⟨?_, ?_, ?_⟩
  · intro streams durations
    have hsorted : List.Sorted (· ≤ ·) (durations.insertionSort (· ≤ ·)) :=
      List.sorted_insertionSort _ _
    have hsub := map_filterMap_sublist (curvePointFor streams)
      (fun p => p.durationSeconds) (fun a b h => curvePointFor_duration streams a b h)
      (durations.insertionSort (· ≤ ·))
    exact List.Pairwise.sublist hsub hsorted
  · intro streams durations p hp
    unfold buildCurve at hp
    obtain ⟨d, _, hd⟩ := List.mem_filterMap.mp hp
    have hdur : p.durationSeconds = d := curvePointFor_duration streams d p hd
    have hsome : ((curveBest streams d).2).isSome := by
      unfold curvePointFor at hd
      cases hb : (curveBest streams d).2 with
      | none => rw [hb] at hd; exact absurd hd (by simp)
      | some w => rfl
    rcases curveBest_aux d streams (-1, none) hsome with hinit | ⟨ws, hmem, hs⟩
    · exact absurd hinit (by simp)
    · exact ⟨ws, hmem, hdur ▸ (computeBestPower_isSome_iff ws.2 d).mp hs⟩
  · rw [buildCurve_sample]
    rfl

/-- Witness for C9: the 5-second point is on the concrete curve and some
analysed workout has at least 5 samples. -/
theorem claim_C9_witness :
    (⟨5, formatDuration 5, 100, 42, some "2024-01-15", some "Morning Ride"⟩ : CurvePoint) ∈
      buildCurve [(sampleWorkout, List.replicate 30 100)] [30, 5, 15] ∧
    ∃ ws ∈ [(sampleWorkout, List.replicate 30 (100 : ℤ))],
      (⟨5, formatDuration 5, 100, 42, some "2024-01-15", some "Morning Ride"⟩ :
        CurvePoint).durationSeconds ≤ ws.2.length :=
  ⟨by rw [buildCurve_sample]; exact List.mem_cons_self _ _,
    claim_C9.2.1 [(sampleWorkout, List.replicate 30 100)] [30, 5, 15] _
      (by rw [buildCurve_sample]; exact List.mem_cons_self _ _)⟩

-- --- Aerobic decoupling (`computeAerobicDecoupling` in src/mcp/tools/power.ts) ---

/-- Rounding to 2 decimal places: `Math.round(x * 100) / 100`. -/
def round2 (q : ℚ) : ℚ := (jsRound (q * 100) : ℚ) / 100

/-- Rounding to 4 decimal places: `Math.round(x * 10000) / 10000`. -/
def round4 (q : ℚ) : ℚ := (jsRound (q * 10000) : ℚ) / 10000

/-- `arr.reduce((s, v) => s + v, 0) / arr.length`. -/
def listAvg (l : List ℤ) : ℚ := (l.sum : ℚ) / (l.length : ℚ)

/-- The zero-filter pass: drop every index where both power and heart rate
are zero (`if (p !== 0 || h !== 0) filtered.push(...)`, reading out of range
as 0 via `?? 0`). -/
def filteredPairs (p h : List ℤ) : List (ℤ × ℤ) :=
  (List.range p.length).filterMap fun i =>
    if p.getD i 0 = 0 ∧ h.getD i 0 = 0 then none
    else some (p.getD i 0, h.getD i 0)

structure HalfStats where
  avgPower : ℤ
  avgHR : ℤ
  hrPowerRatio : ℚ
  deriving DecidableEq, Repr

structure ComputeDecouplingResult where
  firstHalf : HalfStats
  secondHalf : HalfStats
  decouplingPercent : ℚ
  interpretation : String
  deriving DecidableEq, Repr

/-- `computeAerobicDecoupling` from `src/mcp/tools/power.ts`. -/
def computeAerobicDecoupling (powerStream hrStream : List ℤ) :
    Except String ComputeDecouplingResult :=
  let filtered := filteredPairs powerStream hrStream
  if filtered.length = 0 then
    Except.error "No valid records after filtering zeros"
  else if ¬ ∃ r ∈ filtered, 0 < r.1 then
    Except.error "No power data found in workout records"
  else if ¬ ∃ r ∈ filtered, 0 < r.2 then
    Except.error "No heart rate data found in workout records"
  else
    let mid := filtered.length / 2
    let firstHalfRecords := filtered.take mid
    let secondHalfRecords := filtered.drop mid
    let firstAvgPower := listAvg (firstHalfRecords.map fun r => r.1)
    let firstAvgHR := listAvg (firstHalfRecords.map fun r => r.2)
    let secondAvgPower := listAvg (secondHalfRecords.map fun r => r.1)
    let secondAvgHR := listAvg (secondHalfRecords.map fun r => r.2)
    let ratio1 := firstAvgHR / firstAvgPower
    let ratio2 := secondAvgHR / secondAvgPower
    let decouplingPercent := (ratio2 - ratio1) / ratio1 * 100
    let roundedDecoupling := round2 decouplingPercent
    let a := |roundedDecoupling|
    Except.ok
      { firstHalf := ⟨jsRound firstAvgPower, jsRound firstAvgHR, round4 ratio1⟩
        secondHalf := ⟨jsRound secondAvgPower, jsRound secondAvgHR, round4 ratio2⟩
        decouplingPercent := roundedDecoupling
        interpretation :=
          if a < 5 then "Good aerobic fitness — minimal cardiac drift"
          else if a < 10 then "Moderate decoupling — aerobic endurance developing"
          else "High decoupling — aerobic base needs work" }

/-- Spec-side first half: split at the floored midpoint. -/
def fstHalf (f : List (ℤ × ℤ)) : List (ℤ × ℤ) := f.take (f.length / 2)

/-- Spec-side second half. -/
def sndHalf (f : List (ℤ × ℤ)) : List (ℤ × ℤ) := f.drop (f.length / 2)

/-- Spec-side mean power of a half. -/
def meanPow (l : List (ℤ × ℤ)) : ℚ := listAvg (l.map fun r => r.1)

/-- Spec-side mean heart rate of a half. -/
def meanHR (l : List (ℤ × ℤ)) : ℚ := listAvg (l.map fun r => r.2)

/-- Spec-side classification by absolute (rounded) percent. -/
def classify (a : ℚ) : String :=
  if a < 5 then "Good aerobic fitness — minimal cardiac drift"
  else if a < 10 then "Moderate decoupling — aerobic endurance developing"
  else "High decoupling — aerobic base needs work"

theorem cad_empty (p h : List ℤ) (hf : (filteredPairs p h).length = 0) :
    computeAerobicDecoupling p h
      = Except.error "No valid records after filtering zeros" := by
  unfold computeAerobicDecoupling
  rw [if_pos hf]

theorem cad_nopower (p h : List ℤ) (hf : ¬ (filteredPairs p h).length = 0)
    (hpow : ¬ ∃ r ∈ filteredPairs p h, 0 < r.1) :
    computeAerobicDecoupling p h
      = Except.error "No power data found in workout records" := by
  unfold computeAerobicDecoupling
  rw [if_neg hf, if_pos hpow]

theorem cad_nohr (p h : List ℤ) (hf : ¬ (filteredPairs p h).length = 0)
    (hpow : ∃ r ∈ filteredPairs p h, 0 < r.1)
    (hhr : ¬ ∃ r ∈ filteredPairs p h, 0 < r.2) :
    computeAerobicDecoupling p h
      = Except.error "No heart rate data found in workout records" := by
  unfold computeAerobicDecoupling
  rw [if_neg hf, if_neg (not_not_intro hpow), if_pos hhr]

theorem cad_ok (p h : List ℤ) (hf : ¬ (filteredPairs p h).length = 0)
    (hpow : ∃ r ∈ filteredPairs p h, 0 < r.1)
    (hhr : ∃ r ∈ filteredPairs p h, 0 < r.2) :
    computeAerobicDecoupling p h = Except.ok
      ⟨⟨jsRound (meanPow (fstHalf (filteredPairs p h))),
        jsRound (meanHR (fstHalf (filteredPairs p h))),
        round4 (meanHR (fstHalf (filteredPairs p h)) / meanPow (fstHalf (filteredPairs p h)))⟩,
       ⟨jsRound (meanPow (sndHalf (filteredPairs p h))),
        jsRound (meanHR (sndHalf (filteredPairs p h))),
        round4 (meanHR (sndHalf (filteredPairs p h)) / meanPow (sndHalf (filteredPairs p h)))⟩,
       round2 ((meanHR (sndHalf (filteredPairs p h)) / meanPow (sndHalf (filteredPairs p h))
          - meanHR (fstHalf (filteredPairs p h)) / meanPow (fstHalf (filteredPairs p h)))
        / (meanHR (fstHalf (filteredPairs p h)) / meanPow (fstHalf (filteredPairs p h))) * 100),
       classify |round2 ((meanHR (sndHalf (filteredPairs p h)) / meanPow (sndHalf (filteredPairs p h))
          - meanHR (fstHalf (filteredPairs p h)) / meanPow (fstHalf (filteredPairs p h)))
        / (meanHR (fstHalf (filteredPairs p h)) / meanPow (fstHalf (filteredPairs p h))) * 100)|⟩ := by
  unfold computeAerobicDecoupling
  rw [if_neg hf, if_neg (not_not_intro hpow), if_neg (not_not_intro hhr)]
  rfl

theorem list_sum_nonpos (l : List ℤ) (h : ∀ x ∈ l, x ≤ 0) : l.sum ≤ 0 := by
  induction l with
  | nil => simp
  | cons a l ih =>
    rw [List.sum_cons]
    have ha := h a (List.mem_cons_self a l)
    have := ih fun x hx => h x (List.mem_cons_of_mem a hx)
    linarith

theorem listAvg_pos_facts (l : List ℤ) (hl : 0 < listAvg l) :
    l ≠ [] ∧ ∃ x ∈ l, 0 < x := by
  have hne : l ≠ [] := by
    intro hnil
    rw [hnil] at hl
    simp [listAvg] at hl
  refine ⟨hne, ?_⟩
  have hlen : (0 : ℚ) < (l.length : ℚ) := by
    have := List.length_pos.mpr hne
    exact_mod_cast this
  have hsum : (0 : ℚ) < (l.sum : ℚ) := by
    unfold listAvg at hl
    rcases div_pos_iff.mp hl with ⟨h1, _⟩ | ⟨_, h2⟩
    · exact h1
    · linarith
  have hsum' : 0 < l.sum := by exact_mod_cast hsum
  by_contra hc
  push_neg at hc
  have := list_sum_nonpos l fun x hx => by
    have := hc x hx
    omega
  omega

theorem getD_nonneg (l : List ℤ) (hl : ∀ x ∈ l, 0 ≤ x) (i : ℕ) : 0 ≤ l.getD i 0 := by
  rw [List.getD_eq_getElem?_getD]
  cases hx : l[i]? with
  | none => simp
  | some v =>
    simp only [Option.getD_some]
    exact hl v (List.getElem?_mem hx)

theorem filteredPairs_nonneg (p h : List ℤ) (hp : ∀ x ∈ p, 0 ≤ x)
    (hh : ∀ x ∈ h, 0 ≤ x) : ∀ r ∈ filteredPairs p h, 0 ≤ r.1 ∧ 0 ≤ r.2 := by
  intro r hr
  unfold filteredPairs at hr
  obtain ⟨i, _, hsome⟩ := List.mem_filterMap.mp hr
  by_cases hc : p.getD i 0 = 0 ∧ h.getD i 0 = 0
  · rw [if_pos hc] at hsome
    cases hsome
  · rw [if_neg hc] at hsome
    cases hsome
    exact ⟨getD_nonneg p hp i, getD_nonneg h hh i⟩

theorem sampleA_filtered :
    filteredPairs [200, 200, 200, 200] [140, 140, 154, 154]
      = [(200, 140), (200, 140), (200, 154), (200, 154)] := by decide

theorem sampleB_filtered :
    filteredPairs [200, 200, 200, 200] [140, 140, 147, 147]
      = [(200, 140), (200, 140), (200, 147), (200, 147)] := by decide

theorem sampleA_halves :
    fstHalf [((200 : ℤ), (140 : ℤ)), (200, 140), (200, 154), (200, 154)]
        = [(200, 140), (200, 140)] ∧
    sndHalf [((200 : ℤ), (140 : ℤ)), (200, 140), (200, 154), (200, 154)]
        = [(200, 154), (200, 154)] := by decide

theorem sampleB_halves :
    fstHalf [((200 : ℤ), (140 : ℤ)), (200, 140), (200, 147), (200, 147)]
        = [(200, 140), (200, 140)] ∧
    sndHalf [((200 : ℤ), (140 : ℤ)), (200, 140), (200, 147), (200, 147)]
        = [(200, 147), (200, 147)] := by decide

theorem sampleA_P1 :
    meanPow (fstHalf (filteredPairs [200, 200, 200, 200] [140, 140, 154, 154])) = 200 := by
  rw [sampleA_filtered, sampleA_halves.1]
  simp [meanPow, listAvg]
  norm_num

theorem sampleA_P2 :
    meanPow (sndHalf (filteredPairs [200, 200, 200, 200] [140, 140, 154, 154])) = 200 := by
  rw [sampleA_filtered, sampleA_halves.2]
  simp [meanPow, listAvg]
  norm_num

theorem sampleA_H1 :
    meanHR (fstHalf (filteredPairs [200, 200, 200, 200] [140, 140, 154, 154])) = 140 := by
  rw [sampleA_filtered, sampleA_halves.1]
  simp [meanHR, listAvg]
  norm_num

theorem sampleA_H2 :
    meanHR (sndHalf (filteredPairs [200, 200, 200, 200] [140, 140, 154, 154])) = 154 := by
  rw [sampleA_filtered, sampleA_halves.2]
  simp [meanHR, listAvg]
  norm_num

/-- C5: `computeAerobicDecoupling` splits the zero-filtered sequence at the
floored midpoint, computes per-half mean power, mean heart rate and the
ratio HR/power, returns `decouplingPercent = (r2 − r1)/r1 × 100` rounded to
2 decimal places, classified by absolute percent (`< 5` minimal drift,
`5 ≤ x < 10` moderate, `≥ 10` high); a 140→154 bpm step at constant 200 W
gives exactly 10% with the high interpretation, a 140→147 step exactly 5%
with the moderate one. -/
theorem claim_C5 :
    (∀ p h : List ℤ,
      0 < meanPow (fstHalf (filteredPairs p h)) →
      0 < meanPow (sndHalf (filteredPairs p h)) →
      0 < meanHR (fstHalf (filteredPairs p h)) →
      computeAerobicDecoupling p h = Except.ok
        ⟨⟨jsRound (meanPow (fstHalf (filteredPairs p h))),
          jsRound (meanHR (fstHalf (filteredPairs p h))),
          round4 (meanHR (fstHalf (filteredPairs p h)) / meanPow (fstHalf (filteredPairs p h)))⟩,
         ⟨jsRound (meanPow (sndHalf (filteredPairs p h))),
          jsRound (meanHR (sndHalf (filteredPairs p h))),
          round4 (meanHR (sndHalf (filteredPairs p h)) / meanPow (sndHalf (filteredPairs p h)))⟩,
         round2 ((meanHR (sndHalf (filteredPairs p h)) / meanPow (sndHalf (filteredPairs p h))
            - meanHR (fstHalf (filteredPairs p h)) / meanPow (fstHalf (filteredPairs p h)))
          / (meanHR (fstHalf (filteredPairs p h)) / meanPow (fstHalf (filteredPairs p h))) * 100),
         classify |round2 ((meanHR (sndHalf (filteredPairs p h)) / meanPow (sndHalf (filteredPairs p h))
            - meanHR (fstHalf (filteredPairs p h)) / meanPow (fstHalf (filteredPairs p h)))
          / (meanHR (fstHalf (filteredPairs p h)) / meanPow (fstHalf (filteredPairs p h))) * 100)|⟩) ∧
    (∃ r, computeAerobicDecoupling [200, 200, 200, 200] [140, 140, 154, 154] = Except.ok r ∧
      r.decouplingPercent = 10 ∧
      r.interpretation = "High decoupling — aerobic base needs work") ∧
    (∃ r, computeAerobicDecoupling [200, 200, 200, 200] [140, 140, 147, 147] = Except.ok r ∧
      r.decouplingPercent = 5 ∧
      r.interpretation = "Moderate decoupling — aerobic endurance developing") := by
  refine ⟨?_, ?_, ?_⟩
  · intro p h h1 h2 h3
    obtain ⟨hne1, x, hx, hxpos⟩ := listAvg_pos_facts _ h1
    obtain ⟨hne3, y, hy, hypos⟩ := listAvg_pos_facts _ h3
    obtain ⟨r1, hr1, hr1x⟩ := List.mem_map.mp hx
    obtain ⟨r3, hr3, hr3y⟩ := List.mem_map.mp hy
    have hf : ¬ (filteredPairs p h).length = 0 := by
      intro hlen
      have : filteredPairs p h = [] := List.length_eq_zero.mp hlen
      rw [fstHalf, this] at hne1
      simp at hne1
    have hpow : ∃ r ∈ filteredPairs p h, 0 < r.1 :=
      ⟨r1, List.mem_of_mem_take hr1, by rw [hr1x]; exact hxpos⟩
    have hhr : ∃ r ∈ filteredPairs p h, 0 < r.2 :=
      ⟨r3, List.mem_of_mem_take hr3, by rw [hr3y]; exact hypos⟩
    exact cad_ok p h hf hpow hhr
  · have Hcad := cad_ok [200, 200, 200, 200] [140, 140, 154, 154]
      (by rw [sampleA_filtered]; decide)
      (by rw [sampleA_filtered]; decide)
      (by rw [sampleA_filtered]; decide)
    rw [sampleA_P1, sampleA_P2, sampleA_H1, sampleA_H2] at Hcad
    refine ⟨_, Hcad, ?_, ?_⟩
    · show round2 ((154 / 200 - 140 / 200) / (140 / 200) * 100) = 10
      norm_num [round2, jsRound]
    · show classify |round2 ((154 / 200 - 140 / 200) / (140 / 200) * 100)| = _
      norm_num [round2, jsRound, classify]
  · have hP1 : meanPow (fstHalf (filteredPairs [200, 200, 200, 200] [140, 140, 147, 147])) = 200 := by
      rw [sampleB_filtered, sampleB_halves.1]
      simp [meanPow, listAvg]
      norm_num
    have hP2 : meanPow (sndHalf (filteredPairs [200, 200, 200, 200] [140, 140, 147, 147])) = 200 := by
      rw [sampleB_filtered, sampleB_halves.2]
      simp [meanPow, listAvg]
      norm_num
    have hH1 : meanHR (fstHalf (filteredPairs [200, 200, 200, 200] [140, 140, 147, 147])) = 140 := by
      rw [sampleB_filtered, sampleB_halves.1]
      simp [meanHR, listAvg]
      norm_num
    have hH2 : meanHR (sndHalf (filteredPairs [200, 200, 200, 200] [140, 140, 147, 147])) = 147 := by
      rw [sampleB_filtered, sampleB_halves.2]
      simp [meanHR, listAvg]
      norm_num
    have Hcad := cad_ok [200, 200, 200, 200] [140, 140, 147, 147]
      (by rw [sampleB_filtered]; decide)
      (by rw [sampleB_filtered]; decide)
      (by rw [sampleB_filtered]; decide)
    rw [hP1, hP2, hH1, hH2] at Hcad
    refine ⟨_, Hcad, ?_, ?_⟩
    · show round2 ((147 / 200 - 140 / 200) / (140 / 200) * 100) = 5
      norm_num [round2, jsRound]
    · show classify |round2 ((147 / 200 - 140 / 200) / (140 / 200) * 100)| = _
      norm_num [round2, jsRound, classify]

/-- Witness for C5 at the 140→154 bpm constant-200 W stream. -/
theorem claim_C5_witness :
    computeAerobicDecoupling [200, 200, 200, 200] [140, 140, 154, 154] = Except.ok
      ⟨⟨jsRound (meanPow (fstHalf (filteredPairs [200, 200, 200, 200] [140, 140, 154, 154]))),
        jsRound (meanHR (fstHalf (filteredPairs [200, 200, 200, 200] [140, 140, 154, 154]))),
        round4 (meanHR (fstHalf (filteredPairs [200, 200, 200, 200] [140, 140, 154, 154]))
          / meanPow (fstHalf (filteredPairs [200, 200, 200, 200] [140, 140, 154, 154])))⟩,
       ⟨jsRound (meanPow (sndHalf (filteredPairs [200, 200, 200, 200] [140, 140, 154, 154]))),
        jsRound (meanHR (sndHalf (filteredPairs [200, 200, 200, 200] [140, 140, 154, 154]))),
        round4 (meanHR (sndHalf (filteredPairs [200, 200, 200, 200] [140, 140, 154, 154]))
          / meanPow (sndHalf (filteredPairs [200, 200, 200, 200] [140, 140, 154, 154])))⟩,
       round2 ((meanHR (sndHalf (filteredPairs [200, 200, 200, 200] [140, 140, 154, 154]))
            / meanPow (sndHalf (filteredPairs [200, 200, 200, 200] [140, 140, 154, 154]))
          - meanHR (fstHalf (filteredPairs [200, 200, 200, 200] [140, 140, 154, 154]))
            / meanPow (fstHalf (filteredPairs [200, 200, 200, 200] [140, 140, 154, 154])))
        / (meanHR (fstHalf (filteredPairs [200, 200, 200, 200] [140, 140, 154, 154]))
            / meanPow (fstHalf (filteredPairs [200, 200, 200, 200] [140, 140, 154, 154]))) * 100),
       classify |round2 ((meanHR (sndHalf (filteredPairs [200, 200, 200, 200] [140, 140, 154, 154]))
            / meanPow (sndHalf (filteredPairs [200, 200, 200, 200] [140, 140, 154, 154]))
          - meanHR (fstHalf (filteredPairs [200, 200, 200, 200] [140, 140, 154, 154]))
            / meanPow (fstHalf (filteredPairs [200, 200, 200, 200] [140, 140, 154, 154])))
        / (meanHR (fstHalf (filteredPairs [200, 200, 200, 200] [140, 140, 154, 154]))
            / meanPow (fstHalf (filteredPairs [200, 200, 200, 200] [140, 140, 154, 154]))) * 100)|⟩ :=
  claim_C5.1 [200, 200, 200, 200] [140, 140, 154, 154]
    (by rw [sampleA_P1]; norm_num)
    (by rw [sampleA_P2]; norm_num)
    (by rw [sampleA_H1]; norm_num)

/-- C6: the decoupling calculator first drops indices where both power and
heart rate are zero; it fails "no valid data" iff nothing remains, else
"no power data" iff all remaining power values are zero, else "no heart-rate
data" iff all remaining heart-rate values are zero; the all-zero failure is
distinct from the all-zero-power failure. -/
theorem claim_C6 (p h : List ℤ) (hp : ∀ x ∈ p, 0 ≤ x) (hh : ∀ x ∈ h, 0 ≤ x) :
    (computeAerobicDecoupling p h = Except.error "No valid records after filtering zeros"
      ↔ filteredPairs p h = []) ∧
    (computeAerobicDecoupling p h = Except.error "No power data found in workout records"
      ↔ filteredPairs p h ≠ [] ∧ ∀ r ∈ filteredPairs p h, r.1 = 0) ∧
    (computeAerobicDecoupling p h = Except.error "No heart rate data found in workout records"
      ↔ filteredPairs p h ≠ [] ∧ (∃ r ∈ filteredPairs p h, r.1 ≠ 0) ∧
        ∀ r ∈ filteredPairs p h, r.2 = 0) ∧
    ("No valid records after filtering zeros" : String)
      ≠ "No power data found in workout records" := by
  have hnn := filteredPairs_nonneg p h hp hh
  by_cases hemp : filteredPairs p h = []
  · have hres := cad_empty p h (List.length_eq_zero.mpr hemp)
    rw [hres]
    refine ⟨⟨fun _ => hemp, fun _ => rfl⟩, ?_, ?_, by decide⟩
    · constructor
      · intro hcontr
        exact absurd (Except.error.injEq _ _ ▸ hcontr) (by simp)
      · intro ⟨hne, _⟩
        exact absurd hemp hne
    · constructor
      · intro hcontr
        exact absurd (Except.error.injEq _ _ ▸ hcontr) (by simp)
      · intro ⟨hne, _, _⟩
        exact absurd hemp hne
  · have hflen : ¬ (filteredPairs p h).length = 0 :=
      fun hl => hemp (List.length_eq_zero.mp hl)
    by_cases hpow : ∃ r ∈ filteredPairs p h, 0 < r.1
    · by_cases hhr : ∃ r ∈ filteredPairs p h, 0 < r.2
      · have hres := cad_ok p h hflen hpow hhr
        rw [hres]
        obtain ⟨r1, hr1, hr1pos⟩ := hpow
        obtain ⟨r2, hr2, hr2pos⟩ := hhr
        refine ⟨?_, ?_, ?_, by decide⟩
        · constructor
          · intro hcontr
            cases hcontr
          · intro hf
            exact absurd hf hemp
        · constructor
          · intro hcontr
            cases hcontr
          · rintro ⟨_, hall⟩
            exact absurd (hall r1 hr1) (by omega)
        · constructor
          · intro hcontr
            cases hcontr
          · rintro ⟨_, _, hall⟩
            exact absurd (hall r2 hr2) (by omega)
      · have hres := cad_nohr p h hflen hpow hhr
        rw [hres]
        obtain ⟨r1, hr1, hr1pos⟩ := hpow
        refine ⟨?_, ?_, ?_, by decide⟩
        · constructor
          · intro hcontr
            exact absurd (Except.error.injEq _ _ ▸ hcontr) (by simp)
          · intro hf
            exact absurd hf hemp
        · constructor
          · intro hcontr
            exact absurd (Except.error.injEq _ _ ▸ hcontr) (by simp)
          · intro ⟨_, hall⟩
            have := hall r1 hr1
            omega
        · refine ⟨fun _ => ⟨hemp, ⟨r1, hr1, by omega⟩, ?_⟩, fun _ => rfl⟩
          intro r hr
          have h1 := (hnn r hr).2
          have h2 : ¬ 0 < r.2 := fun hc => hhr ⟨r, hr, hc⟩
          omega
    · have hres := cad_nopower p h hflen hpow
      rw [hres]
      refine ⟨?_, ?_, ?_, by decide⟩
      · constructor
        · intro hcontr
          exact absurd (Except.error.injEq _ _ ▸ hcontr) (by simp)
        · intro hf
          exact absurd hf hemp
      · refine ⟨fun _ => ⟨hemp, ?_⟩, fun _ => rfl⟩
        intro r hr
        have h1 := (hnn r hr).1
        have h2 : ¬ 0 < r.1 := fun hc => hpow ⟨r, hr, hc⟩
        omega
      · constructor
        · intro hcontr
          exact absurd (Except.error.injEq _ _ ▸ hcontr) (by simp)
        · intro ⟨_, ⟨r, hr, hrne⟩, _⟩
          have h1 := (hnn r hr).1
          have h2 : ¬ 0 < r.1 := fun hc => hpow ⟨r, hr, hc⟩
          omega

/-- Witness for C6 on the all-zero two-sample stream. -/
theorem claim_C6_witness :
    (∀ x ∈ ([0, 0] : List ℤ), 0 ≤ x) ∧
    ((computeAerobicDecoupling [0, 0] [0, 0]
        = Except.error "No valid records after filtering zeros"
      ↔ filteredPairs [0, 0] [0, 0] = []) ∧
    (computeAerobicDecoupling [0, 0] [0, 0]
        = Except.error "No power data found in workout records"
      ↔ filteredPairs [0, 0] [0, 0] ≠ [] ∧ ∀ r ∈ filteredPairs [0, 0] [0, 0], r.1 = 0) ∧
    (computeAerobicDecoupling [0, 0] [0, 0]
        = Except.error "No heart rate data found in workout records"
      ↔ filteredPairs [0, 0] [0, 0] ≠ [] ∧ (∃ r ∈ filteredPairs [0, 0] [0, 0], r.1 ≠ 0) ∧
        ∀ r ∈ filteredPairs [0, 0] [0, 0], r.2 = 0) ∧
    ("No valid records after filtering zeros" : String)
      ≠ "No power data found in workout records") :=
  ⟨by decide, claim_C6 [0, 0] [0, 0] (by decide) (by decide)⟩

-- --- FitFileCache (src/cache.ts) ---

/-- Cached file contents. -/
abbrev Bytes := List ℕ

/-- One in-memory index entry (`{ path, size, lastAccess }`; the path is
determined by the workout id and is left implicit). -/
structure CacheEntry where
  size : ℕ
  lastAccess : ℕ
  deriving DecidableEq, Repr

/-- Cache state: the files present in the cache directory and the in-memory
index, both keyed by workout id, plus the configured byte budget.  JS `Map`
semantics (insertion order, in-place update) are modelled by association
lists. -/
structure CacheState where
  fsFiles : List (ℕ × Bytes)
  index : List (ℕ × CacheEntry)
  maxBytes : ℕ
  deriving DecidableEq, Repr

/-- Association-list lookup by key. -/
def alookup {β : Type} (k : ℕ) : List (ℕ × β) → Option β
  | [] => none
  | p :: rest => if p.1 = k then some p.2 else alookup k rest

/-- `Map.set` / overwriting file write: update in place when the key is
present, append otherwise. -/
def mapSet {β : Type} (k : ℕ) (v : β) (l : List (ℕ × β)) : List (ℕ × β) :=
  if ∃ p ∈ l, p.1 = k then
    l.map fun p => if p.1 = k then (k, v) else p
  else l ++ [(k, v)]

/-- Total size of all index entries. -/
def totalBytes (index : List (ℕ × CacheEntry)) : ℕ :=
  (index.map fun p => p.2.size).sum

/-- Comparator of the eviction sort: ascending last-access time. -/
def entLE (a b : ℕ × CacheEntry) : Prop := a.2.lastAccess ≤ b.2.lastAccess

instance : DecidableRel entLE := fun _ _ => Nat.decLe _ _

instance : IsTotal (ℕ × CacheEntry) entLE := ⟨fun _ _ => Nat.le_total _ _⟩

instance : IsTrans (ℕ × CacheEntry) entLE := ⟨fun _ _ _ => Nat.le_trans⟩

/-- The body of the eviction loop: walk the entries sorted by ascending
last access, collecting the ids to unlink and delete, stopping as soon as
the running total is within budget. -/
def evictIds : List (ℕ × CacheEntry) → ℕ → ℕ → List ℕ
  | [], _, _ => []
  | e :: rest, total, maxB =>
    if total ≤ maxB then []
    else e.1 :: evictIds rest (total - e.2.size) maxB

/-- `FitFileCache.evict`: nothing to do within budget; otherwise delete the
least-recently-accessed entries (files and index entries) until the total
is at or below the budget. -/
def FitFileCache.evict (st : CacheState) : CacheState :=
  if totalBytes st.index ≤ st.maxBytes then st
  else
    let sorted := st.index.insertionSort entLE
    let bad := evictIds sorted (totalBytes st.index) st.maxBytes
    { st with
      fsFiles := st.fsFiles.filter fun p => decide (p.1 ∉ bad)
      index := st.index.filter fun p => decide (p.1 ∉ bad) }

/-- `FitFileCache.set`: write the file, record the entry with the current
time, then evict. -/
def FitFileCache.set (st : CacheState) (id : ℕ) (buf : Bytes) (now : ℕ) :
    CacheState :=
  FitFileCache.evict
    { st with
      fsFiles := mapSet id buf st.fsFiles
      index := mapSet id ⟨buf.length, now⟩ st.index }

/-- `FitFileCache.get`: miss when the id is not indexed; when the file read
fails (storage vanished behind the cache's back) drop the stale entry and
miss; otherwise return the bytes and refresh the entry's last-access time. -/
def FitFileCache.get (st : CacheState) (id : ℕ) (now : ℕ) :
    Option Bytes × CacheState :=
  match alookup id st.index with
  | none => (none, st)
  | some e =>
    match alookup id st.fsFiles with
    | some buf =>
      (some buf, { st with index := mapSet id ⟨e.size, now⟩ st.index })
    | none =>
      (none, { st with index := st.index.filter fun p => decide (¬ p.1 = id) })

/-- Well-formedness: index keys are distinct (a JS `Map` guarantees it). -/
def CacheState.WF (st : CacheState) : Prop := (st.index.map Prod.fst).Nodup

theorem alookup_mapSet_self {β : Type} (k : ℕ) (v : β) (l : List (ℕ × β)) :
    alookup k (mapSet k v l) = some v := by
  unfold mapSet
  split
  · rename_i hex
    obtain ⟨q, hq, hqk⟩ := hex
    induction l with
    | nil => cases hq
    | cons p rest ih =>
      by_cases hp : p.1 = k
      · simp only [List.map_cons, if_pos hp]
        unfold alookup
        rw [if_pos rfl]
      · simp only [List.map_cons, if_neg hp]
        unfold alookup
        rw [if_neg hp]
        rcases List.mem_cons.mp hq with hqp | hqrest
        · rw [hqp] at hqk
          exact absurd hqk hp
        · exact ih hqrest
  · induction l with
    | nil =>
      rw [List.nil_append]
      unfold alookup
      rw [if_pos rfl]
    | cons p rest ih =>
      rename_i hnex
      have hp : ¬ p.1 = k := fun hc => hnex ⟨p, List.mem_cons_self p rest, hc⟩
      rw [List.cons_append]
      unfold alookup
      rw [if_neg hp]
      exact ih fun ⟨q, hq, hqk⟩ => hnex ⟨q, List.mem_cons_of_mem p hq, hqk⟩

theorem alookup_mapSet_ne {β : Type} (k k' : ℕ) (v : β) (l : List (ℕ × β))
    (hne : k' ≠ k) : alookup k' (mapSet k v l) = alookup k' l := by
  unfold mapSet
  split
  · rename_i hex
    clear hex
    induction l with
    | nil => rfl
    | cons p rest ih =>
      by_cases hp : p.1 = k
      · simp only [List.map_cons, if_pos hp]
        unfold alookup
        rw [if_neg (fun hc : k = k' => hne hc.symm), if_neg (by rw [hp]; exact fun hc => hne hc.symm)]
        exact ih
      · simp only [List.map_cons, if_neg hp]
        unfold alookup
        by_cases hpk : p.1 = k'
        · rw [if_pos hpk, if_pos hpk]
        · rw [if_neg hpk, if_neg hpk]
          exact ih
  · rename_i hnex
    clear hnex
    induction l with
    | nil =>
      rw [List.nil_append]
      unfold alookup
      rw [if_neg (fun hc : k = k' => hne hc.symm)]
      rfl
    | cons p rest ih =>
      rw [List.cons_append]
      unfold alookup
      by_cases hpk : p.1 = k'
      · rw [if_pos hpk, if_pos hpk]
      · rw [if_neg hpk, if_neg hpk]
        exact ih

theorem mem_mapSet {β : Type} (k : ℕ) (v : β) (l : List (ℕ × β)) (q : ℕ × β)
    (hq : q ∈ mapSet k v l) : q = (k, v) ∨ (q ∈ l ∧ q.1 ≠ k) := by
  unfold mapSet at hq
  split at hq
  · obtain ⟨p, hp, hpq⟩ := List.mem_map.mp hq
    by_cases hpk : p.1 = k
    · rw [if_pos hpk] at hpq
      exact Or.inl hpq.symm
    · rw [if_neg hpk] at hpq
      exact Or.inr ⟨hpq ▸ hp, hpq ▸ hpk⟩
  · rcases List.mem_append.mp hq with hql | hqr
    · rename_i hnex
      refine Or.inr ⟨hql, fun hc => hnex ⟨q, hql, hc⟩⟩
    · rcases List.mem_singleton.mp hqr with h
      exact Or.inl h

theorem self_mem_mapSet {β : Type} (k : ℕ) (v : β) (l : List (ℕ × β)) :
    (k, v) ∈ mapSet k v l := by
  unfold mapSet
  split
  · rename_i hex
    obtain ⟨q, hq, hqk⟩ := hex
    refine List.mem_map.mpr ⟨q, hq, ?_⟩
    rw [if_pos hqk]
  · exact List.mem_append.mpr (Or.inr (List.mem_singleton.mpr rfl))

theorem mapSet_WF {β : Type} (k : ℕ) (v : β) (l : List (ℕ × β))
    (h : (l.map Prod.fst).Nodup) :
    ((mapSet k v l).map Prod.fst).Nodup := by
  unfold mapSet
  split
  · have : (l.map fun p => if p.1 = k then (k, v) else p).map Prod.fst
        = l.map Prod.fst := by
      rw [List.map_map]
      refine List.map_congr_left fun p _ => ?_
      by_cases hp : p.1 = k
      · simp [hp]
      · simp [hp]
    rw [this]
    exact h
  · rename_i hnex
    rw [List.map_append]
    rw [List.nodup_append]
    refine ⟨h, List.nodup_singleton k, ?_⟩
    intro a ha hb
    rcases List.mem_singleton.mp hb with rfl
    obtain ⟨p, hp, hpk⟩ := List.mem_map.mp ha
    exact hnex ⟨p, hp, hpk⟩

theorem alookup_cons {β : Type} (k : ℕ) (p : ℕ × β) (rest : List (ℕ × β)) :
    alookup k (p :: rest) = if p.1 = k then some p.2 else alookup k rest := rfl

theorem alookup_filter_not_bad {β : Type} (k : ℕ) (bad : List ℕ) (l : List (ℕ × β))
    (hk : k ∉ bad) :
    alookup k (l.filter fun p => decide (p.1 ∉ bad)) = alookup k l := by
  induction l with
  | nil => rfl
  | cons p rest ih =>
    by_cases hmem : p.1 ∉ bad
    · rw [List.filter_cons_of_pos (by simpa using hmem)]
      unfold alookup
      by_cases hpk : p.1 = k
      · rw [if_pos hpk, if_pos hpk]
      · rw [if_neg hpk, if_neg hpk]
        exact ih
    · rw [List.filter_cons_of_neg (by simpa using hmem)]
      have hpk : ¬ p.1 = k := fun hc => hmem (by rw [hc]; exact fun hmem2 => hk hmem2)
      rw [alookup_cons, if_neg hpk]
      exact ih

theorem alookup_filter_ne_self {β : Type} (k : ℕ) (l : List (ℕ × β)) :
    alookup k (l.filter fun p => decide (¬ p.1 = k)) = none := by
  induction l with
  | nil => rfl
  | cons p rest ih =>
    by_cases hpk : p.1 = k
    · rw [List.filter_cons_of_neg (by simpa using hpk)]
      exact ih
    · rw [List.filter_cons_of_pos (by simpa using hpk)]
      unfold alookup
      rw [if_neg hpk]
      exact ih

theorem alookup_filter_other {β : Type} (k j : ℕ) (l : List (ℕ × β)) (hne : j ≠ k) :
    alookup j (l.filter fun p => decide (¬ p.1 = k)) = alookup j l := by
  induction l with
  | nil => rfl
  | cons p rest ih =>
    by_cases hpk : p.1 = k
    · rw [List.filter_cons_of_neg (by simpa using hpk)]
      rw [alookup_cons, if_neg (by rw [hpk]; exact fun hc => hne hc.symm)]
      exact ih
    · rw [List.filter_cons_of_pos (by simpa using hpk)]
      unfold alookup
      by_cases hpj : p.1 = j
      · rw [if_pos hpj, if_pos hpj]
      · rw [if_neg hpj, if_neg hpj]
        exact ih

theorem alookup_some_mem {β : Type} (k : ℕ) (v : β) (l : List (ℕ × β))
    (h : alookup k l = some v) : (k, v) ∈ l := by
  induction l with
  | nil => cases h
  | cons p rest ih =>
    unfold alookup at h
    by_cases hpk : p.1 = k
    · rw [if_pos hpk] at h
      cases h
      have : p = (k, p.2) := by
        cases p
        simp at hpk
        rw [hpk]
      rw [← this]
      exact List.mem_cons_self p rest
    · rw [if_neg hpk] at h
      exact List.mem_cons_of_mem p (ih h)

theorem size_le_totalBytes (l : List (ℕ × CacheEntry)) (q : ℕ × CacheEntry)
    (hq : q ∈ l) : q.2.size ≤ totalBytes l := by
  induction l with
  | nil => cases hq
  | cons p rest ih =>
    unfold totalBytes
    rw [List.map_cons, List.sum_cons]
    rcases List.mem_cons.mp hq with hqp | hqrest
    · rw [hqp]
      exact Nat.le_add_right _ _
    · have := ih hqrest
      unfold totalBytes at this
      omega

theorem filter_WF (f : (ℕ × CacheEntry) → Bool) (l : List (ℕ × CacheEntry))
    (h : (l.map Prod.fst).Nodup) : ((l.filter f).map Prod.fst).Nodup :=
  List.Nodup.sublist (List.Sublist.map Prod.fst (List.filter_sublist l)) h

/-- Main eviction bound: filtering out the collected ids brings the total
size of a key-distinct list within the budget. -/
theorem evictIds_spec (l : List (ℕ × CacheEntry)) (maxB : ℕ) :
    ∀ t, t = totalBytes l → (l.map Prod.fst).Nodup →
    totalBytes (l.filter fun p => decide (p.1 ∉ evictIds l t maxB)) ≤ maxB := by
  induction l with
  | nil =>
    intro t _ _
    simp [totalBytes]
  | cons e rest ih =>
    intro t ht hnd
    unfold evictIds
    by_cases hle : t ≤ maxB
    · rw [if_pos hle]
      have : ((e :: rest).filter fun p => decide (p.1 ∉ ([] : List ℕ))) = e :: rest := by
        apply List.filter_eq_self.mpr
        intro a _
        simp
      rw [this, ← ht]
      exact hle
    · rw [if_neg hle]
      have hkeys : ∀ p ∈ rest, p.1 ≠ e.1 := by
        intro p hp hc
        rw [List.map_cons] at hnd
        rcases List.nodup_cons.mp hnd with ⟨hnotin, _⟩
        exact hnotin (hc ▸ List.mem_map_of_mem Prod.fst hp)
      have hhead : ¬ (e.1 ∉ e.1 :: evictIds rest (t - e.2.size) maxB) := by
        simp
      rw [List.filter_cons_of_neg (by simpa using hhead)]
      have hcongr : (rest.filter fun p => decide (p.1 ∉ e.1 :: evictIds rest (t - e.2.size) maxB))
          = rest.filter fun p => decide (p.1 ∉ evictIds rest (t - e.2.size) maxB) := by
        apply List.filter_congr
        intro p hp
        simp only [decide_eq_decide, List.mem_cons]
        constructor
        · intro hnot hmem
          exact hnot (Or.inr hmem)
        · intro hnot hmem
          rcases hmem with hc | hmem2
          · exact hkeys p hp hc
          · exact hnot hmem2
      rw [hcongr]
      have ht' : t - e.2.size = totalBytes rest := by
        unfold totalBytes at ht ⊢
        rw [List.map_cons, List.sum_cons] at ht
        omega
      have hnd' : (rest.map Prod.fst).Nodup := by
        rw [List.map_cons] at hnd
        exact (List.nodup_cons.mp hnd).2
      exact ih (t - e.2.size) ht' hnd'

/-- Every evicted entry was last accessed no later than every kept entry,
when the walked list is sorted ascending by last access. -/
theorem evictIds_le_kept (l : List (ℕ × CacheEntry)) (maxB : ℕ) :
    ∀ t, List.Pairwise entLE l → (l.map Prod.fst).Nodup →
    ∀ a ∈ l, ∀ b ∈ l, a.1 ∈ evictIds l t maxB → b.1 ∉ evictIds l t maxB →
    a.2.lastAccess ≤ b.2.lastAccess := by
  induction l with
  | nil =>
    intro t _ _ a ha
    cases ha
  | cons e rest ih =>
    intro t hpw hnd a ha b hb hae hbk
    unfold evictIds at hae hbk
    by_cases hle : t ≤ maxB
    · rw [if_pos hle] at hae
      cases hae
    · rw [if_neg hle] at hae hbk
      have hkeys : ∀ p ∈ rest, p.1 ≠ e.1 := by
        intro p hp hc
        rw [List.map_cons] at hnd
        rcases List.nodup_cons.mp hnd with ⟨hnotin, _⟩
        exact hnotin (hc ▸ List.mem_map_of_mem Prod.fst hp)
      have hbne : b.1 ≠ e.1 := fun hc => hbk (hc ▸ List.mem_cons_self _ _)
      have hbrest : b ∈ rest := by
        rcases List.mem_cons.mp hb with hbe | hbr
        · exact absurd (by rw [hbe]) hbne
        · exact hbr
      have hbk' : b.1 ∉ evictIds rest (t - e.2.size) maxB :=
        fun hc => hbk (List.mem_cons_of_mem _ hc)
      rcases List.mem_cons.mp ha with hae' | har
      · rw [hae']
        exact (List.pairwise_cons.mp hpw).1 b hbrest
      · have hane : a.1 ≠ e.1 := hkeys a har
        have hae2 : a.1 ∈ evictIds rest (t - e.2.size) maxB := by
          rcases List.mem_cons.mp hae with hc | hc
          · exact absurd hc hane
          · exact hc
        exact ih (t - e.2.size) (List.pairwise_cons.mp hpw).2
          (by rw [List.map_cons] at hnd; exact (List.nodup_cons.mp hnd).2)
          a har b hbrest hae2 hbk'

/-- The last element of the walked list survives eviction whenever its own
size fits the budget and its key appears nowhere earlier. -/
theorem evictIds_last_kept (a : ℕ × CacheEntry) (maxB : ℕ) :
    ∀ (l : List (ℕ × CacheEntry)) t, t = totalBytes (l ++ [a]) →
    a.2.size ≤ maxB → a.1 ∉ l.map Prod.fst →
    a.1 ∉ evictIds (l ++ [a]) t maxB := by
  intro l
  induction l with
  | nil =>
    intro t ht hsize _
    have : t ≤ maxB := by
      unfold totalBytes at ht
      simp at ht
      omega
    rw [List.nil_append]
    unfold evictIds
    rw [if_pos this]
    exact List.not_mem_nil _
  | cons e rest ih =>
    intro t ht hsize hkeys
    rw [List.cons_append]
    unfold evictIds
    by_cases hle : t ≤ maxB
    · rw [if_pos hle]
      exact List.not_mem_nil _
    · rw [if_neg hle]
      intro hmem
      rcases List.mem_cons.mp hmem with hc | hc
      · exact hkeys (by rw [List.map_cons]; exact hc ▸ List.mem_cons_self _ _)
      · have ht' : t - e.2.size = totalBytes (rest ++ [a]) := by
          unfold totalBytes at ht ⊢
          rw [List.cons_append, List.map_cons, List.sum_cons] at ht
          omega
        have hkeys' : a.1 ∉ rest.map Prod.fst := by
          intro hc2
          exact hkeys (by rw [List.map_cons]; exact List.mem_cons_of_mem _ hc2)
        exact ih (t - e.2.size) ht' hsize hkeys' hc

theorem get_fst_eq (st : CacheState) (id now : ℕ) (e : CacheEntry) (buf : Bytes)
    (h1 : alookup id st.index = some e) (h2 : alookup id st.fsFiles = some buf) :
    FitFileCache.get st id now
      = (some buf, { st with index := mapSet id ⟨e.size, now⟩ st.index }) := by
  unfold FitFileCache.get
  rw [h1, h2]

theorem get_miss_eq (st : CacheState) (id now : ℕ)
    (h1 : alookup id st.index = none) :
    FitFileCache.get st id now = (none, st) := by
  unfold FitFileCache.get
  rw [h1]

theorem get_stale_eq (st : CacheState) (id now : ℕ) (e : CacheEntry)
    (h1 : alookup id st.index = some e) (h2 : alookup id st.fsFiles = none) :
    FitFileCache.get st id now
      = (none, { st with index := st.index.filter fun p => decide (¬ p.1 = id) }) := by
  unfold FitFileCache.get
  rw [h1, h2]

theorem evict_totalBytes (st : CacheState) (hwf : st.WF) :
    totalBytes (FitFileCache.evict st).index ≤ st.maxBytes := by
  unfold FitFileCache.evict
  by_cases hle : totalBytes st.index ≤ st.maxBytes
  · rw [if_pos hle]
    exact hle
  · rw [if_neg hle]
    show totalBytes (st.index.filter fun p =>
      decide (p.1 ∉ evictIds (st.index.insertionSort entLE)
        (totalBytes st.index) st.maxBytes)) ≤ st.maxBytes
    have hperm : (st.index.insertionSort entLE).Perm st.index :=
      List.perm_insertionSort entLE st.index
    have hnd : ((st.index.insertionSort entLE).map Prod.fst).Nodup :=
      ((hperm.map Prod.fst).nodup_iff).mpr hwf
    have htot : totalBytes st.index = totalBytes (st.index.insertionSort entLE) := by
      unfold totalBytes
      exact ((hperm.map fun p => p.2.size).sum_eq).symm
    have hfilt : totalBytes (st.index.filter fun p =>
        decide (p.1 ∉ evictIds (st.index.insertionSort entLE) (totalBytes st.index) st.maxBytes))
        = totalBytes ((st.index.insertionSort entLE).filter fun p =>
          decide (p.1 ∉ evictIds (st.index.insertionSort entLE) (totalBytes st.index) st.maxBytes)) := by
      unfold totalBytes
      exact (((List.Perm.filter _ hperm).symm.map fun p => p.2.size).sum_eq)
    rw [hfilt]
    exact evictIds_spec (st.index.insertionSort entLE) st.maxBytes
      (totalBytes st.index) htot hnd

theorem evict_le_kept (st : CacheState) (hwf : st.WF) (a : ℕ × CacheEntry)
    (ha : a ∈ st.index) (hna : a ∉ (FitFileCache.evict st).index)
    (b : ℕ × CacheEntry) (hb : b ∈ (FitFileCache.evict st).index) :
    a.2.lastAccess ≤ b.2.lastAccess := by
  unfold FitFileCache.evict at hna hb
  by_cases hle : totalBytes st.index ≤ st.maxBytes
  · rw [if_pos hle] at hna
    exact absurd ha hna
  · rw [if_neg hle] at hna hb
    have hperm : (st.index.insertionSort entLE).Perm st.index :=
      List.perm_insertionSort entLE st.index
    have hnd : ((st.index.insertionSort entLE).map Prod.fst).Nodup :=
      ((hperm.map Prod.fst).nodup_iff).mpr hwf
    have hpw : List.Pairwise entLE (st.index.insertionSort entLE) :=
      List.sorted_insertionSort entLE st.index
    have hbmem := List.mem_filter.mp hb
    have hbbad : b.1 ∉ evictIds (st.index.insertionSort entLE)
        (totalBytes st.index) st.maxBytes := of_decide_eq_true hbmem.2
    have habad : a.1 ∈ evictIds (st.index.insertionSort entLE)
        (totalBytes st.index) st.maxBytes := by
      by_contra hc
      exact hna (List.mem_filter.mpr ⟨ha, decide_eq_true hc⟩)
    exact evictIds_le_kept (st.index.insertionSort entLE) st.maxBytes
      (totalBytes st.index) hpw hnd a (hperm.mem_iff.mpr ha)
      b (hperm.mem_iff.mpr hbmem.1) habad hbbad

theorem evict_alookup_eq (st : CacheState) (k : ℕ)
    (hk : k ∉ evictIds (st.index.insertionSort entLE) (totalBytes st.index) st.maxBytes) :
    alookup k (FitFileCache.evict st).index = alookup k st.index ∧
    alookup k (FitFileCache.evict st).fsFiles = alookup k st.fsFiles := by
  unfold FitFileCache.evict
  by_cases hle : totalBytes st.index ≤ st.maxBytes
  · rw [if_pos hle]
    exact ⟨rfl, rfl⟩
  · rw [if_neg hle]
    exact ⟨alookup_filter_not_bad k _ st.index hk, alookup_filter_not_bad k _ st.fsFiles hk⟩

/-- The entry just written is never evicted when its buffer alone fits the
budget and its write time is fresher than every other entry's last access:
it sorts last, and the loop stops before (or upon) reaching it. -/
theorem set_id_not_evicted (st : CacheState) (id : ℕ) (buf : Bytes) (now : ℕ)
    (hwf : st.WF) (hsize : buf.length ≤ st.maxBytes)
    (hfresh : ∀ p ∈ st.index, p.1 ≠ id → p.2.lastAccess < now) :
    id ∉ evictIds ((mapSet id ⟨buf.length, now⟩ st.index).insertionSort entLE)
      (totalBytes (mapSet id ⟨buf.length, now⟩ st.index)) st.maxBytes := by
  set idx1 := mapSet id (CacheEntry.mk buf.length now) st.index with hidx1
  set sorted := idx1.insertionSort entLE with hsortdef
  have hwf1 : (idx1.map Prod.fst).Nodup := mapSet_WF id _ st.index hwf
  have hperm : sorted.Perm idx1 := List.perm_insertionSort entLE idx1
  have hnd : (sorted.map Prod.fst).Nodup := (hperm.map Prod.fst).nodup_iff.mpr hwf1
  have hpw : List.Pairwise entLE sorted := List.sorted_insertionSort entLE idx1
  have hamem : ((id, CacheEntry.mk buf.length now) : ℕ × CacheEntry) ∈ sorted :=
    hperm.mem_iff.mpr (self_mem_mapSet id _ st.index)
  obtain ⟨l1, l2, hsplit⟩ := List.append_of_mem hamem
  have hl2 : l2 = [] := by
    cases l2 with
    | nil => rfl
    | cons c l2' =>
      exfalso
      have hcmem : c ∈ sorted := by
        rw [hsplit]
        exact List.mem_append.mpr (Or.inr (List.mem_cons_of_mem _ (List.mem_cons_self c l2')))
      have hle2 : entLE (id, CacheEntry.mk buf.length now) c := by
        rw [hsplit] at hpw
        have hp2 := (List.pairwise_append.mp hpw).2.1
        exact (List.pairwise_cons.mp hp2).1 c (List.mem_cons_self c l2')
      have hcne : c.1 ≠ id := by
        intro hc
        rw [hsplit, List.map_append, List.map_cons, List.map_cons] at hnd
        have hp2 := (List.nodup_append.mp hnd).2.1
        rcases List.nodup_cons.mp hp2 with ⟨hnotin, _⟩
        exact hnotin (by rw [← hc]; exact List.mem_cons_self c.1 (l2'.map Prod.fst))
      have hcidx : c ∈ idx1 := hperm.mem_iff.mp hcmem
      rcases mem_mapSet id _ st.index c hcidx with hc1 | ⟨hc2, hc3⟩
      · exact hcne (by rw [hc1])
      · have hlt := hfresh c hc2 hc3
        unfold entLE at hle2
        simp only at hle2
        omega
  have hkeys : id ∉ l1.map Prod.fst := by
    rw [hsplit, hl2, List.map_append, List.map_cons] at hnd
    intro hc
    rcases List.nodup_append.mp hnd with ⟨_, _, hdisj⟩
    exact hdisj hc (List.mem_cons_self id _)
  have ht : totalBytes idx1 = totalBytes (l1 ++ [(id, CacheEntry.mk buf.length now)]) := by
    have h1 : totalBytes idx1 = totalBytes sorted := by
      unfold totalBytes
      exact ((hperm.map fun p => p.2.size).sum_eq).symm
    rw [h1, hsplit, hl2]
  rw [hsplit, hl2]
  exact evictIds_last_kept (id, CacheEntry.mk buf.length now) st.maxBytes l1
    (totalBytes idx1) ht hsize hkeys

/-- Core of the amended C2: `set` then `get` round-trips whenever the
buffer fits the byte budget and the write is fresher than all other
entries. -/
theorem set_get_roundtrip (st : CacheState) (id : ℕ) (buf : Bytes) (now now2 : ℕ)
    (hwf : st.WF) (hsize : buf.length ≤ st.maxBytes)
    (hfresh : ∀ p ∈ st.index, p.1 ≠ id → p.2.lastAccess < now) :
    (FitFileCache.get (FitFileCache.set st id buf now) id now2).1 = some buf := by
  have hnot := set_id_not_evicted st id buf now hwf hsize hfresh
  have hset : FitFileCache.set st id buf now = FitFileCache.evict
      ⟨mapSet id buf st.fsFiles, mapSet id ⟨buf.length, now⟩ st.index, st.maxBytes⟩ := rfl
  rw [hset]
  obtain ⟨hidx, hfs⟩ := evict_alookup_eq
    ⟨mapSet id buf st.fsFiles, mapSet id ⟨buf.length, now⟩ st.index, st.maxBytes⟩ id hnot
  have hidx2 : alookup id (FitFileCache.evict
      ⟨mapSet id buf st.fsFiles, mapSet id ⟨buf.length, now⟩ st.index, st.maxBytes⟩).index
      = some ⟨buf.length, now⟩ := by
    rw [hidx]
    exact alookup_mapSet_self id _ st.index
  have hfs2 : alookup id (FitFileCache.evict
      ⟨mapSet id buf st.fsFiles, mapSet id ⟨buf.length, now⟩ st.index, st.maxBytes⟩).fsFiles
      = some buf := by
    rw [hfs]
    exact alookup_mapSet_self id buf st.fsFiles
  rw [get_fst_eq _ id now2 ⟨buf.length, now⟩ buf hidx2 hfs2]

/-- C2 counterexample: with a 1024-byte budget, a 1025-byte buffer written
by `set` is evicted by the eviction pass `set` itself triggers, so the
immediately following `get` misses instead of returning the stored bytes. -/
theorem claim_C2_counterexample :
    (FitFileCache.get (FitFileCache.set ⟨[], [], 1024⟩ 7 (List.replicate 1025 0) 1) 7 2).1
      ≠ some (List.replicate 1025 0) := by decide

/-- C2 (amended): `set` then `get` with the same id round-trips identical
bytes provided the buffer's size is at most the configured budget (and the
write's timestamp is newer than every other entry's last access); a buffer
alone exceeding the budget is evicted during `set` and `get` then misses. -/
theorem claim_C2 (st : CacheState) (id : ℕ) (buf : Bytes) (now now2 : ℕ)
    (hwf : st.WF) (hsize : buf.length ≤ st.maxBytes)
    (hfresh : ∀ p ∈ st.index, p.1 ≠ id → p.2.lastAccess < now) :
    (FitFileCache.get (FitFileCache.set st id buf now) id now2).1 = some buf :=
  set_get_roundtrip st id buf now now2 hwf hsize hfresh

/-- Witness for C2 on an empty cache and a 3-byte buffer. -/
theorem claim_C2_witness :
    (⟨[], [], 1024⟩ : CacheState).WF ∧
    ([1, 2, 3] : Bytes).length ≤ (⟨[], [], 1024⟩ : CacheState).maxBytes ∧
    (FitFileCache.get (FitFileCache.set ⟨[], [], 1024⟩ 7 [1, 2, 3] 1) 7 2).1
      = some [1, 2, 3] :=
  ⟨by unfold CacheState.WF; decide, by decide,
    claim_C2 ⟨[], [], 1024⟩ 7 [1, 2, 3] 1 2 (by unfold CacheState.WF; decide)
      (by decide) (by decide)⟩

/-- A 400-byte buffer. -/
def buf400 : Bytes := List.replicate 400 0

/-- The spec's LRU scenario: budget 1024, `set 1`, `set 2`, `get 1`,
`set 3`, with strictly increasing clock readings. -/
def lruScenario : CacheState :=
  FitFileCache.set
    (FitFileCache.get
      (FitFileCache.set (FitFileCache.set ⟨[], [], 1024⟩ 1 buf400 1) 2 buf400 2)
      1 3).2
    3 buf400 4

/-- C3: when a `set` pushes the total over the budget, entries are evicted
in ascending last-access order until the total is within budget (every
evicted entry is no more recently accessed than every survivor), `get`
refreshes the accessed entry's last-access time, and in the concrete
scenario (budget 1024, three 400-byte writes, `get 1` between writes 2 and
3) entry 2 is evicted while entries 1 and 3 remain readable. -/
theorem claim_C3 :
    (∀ (st : CacheState) (id now : ℕ) (e : CacheEntry) (buf : Bytes),
      alookup id st.index = some e → alookup id st.fsFiles = some buf →
      alookup id (FitFileCache.get st id now).2.index = some ⟨e.size, now⟩) ∧
    (∀ st : CacheState, st.WF → ∀ a ∈ st.index, a ∉ (FitFileCache.evict st).index →
      ∀ b ∈ (FitFileCache.evict st).index, a.2.lastAccess ≤ b.2.lastAccess) ∧
    (∀ st : CacheState, st.WF → totalBytes (FitFileCache.evict st).index ≤ st.maxBytes) ∧
    (alookup 1 lruScenario.index ≠ none ∧
     alookup 2 lruScenario.index = none ∧
     alookup 3 lruScenario.index ≠ none ∧
     (FitFileCache.get lruScenario 1 5).1 = some buf400 ∧
     (FitFileCache.get lruScenario 2 5).1 = none ∧
     (FitFileCache.get lruScenario 3 5).1 = some buf400) := by
  refine ⟨?_, ?_, ?_, ?_⟩
  · intro st id now e buf h1 h2
    rw [get_fst_eq st id now e buf h1 h2]
    exact alookup_mapSet_self id _ st.index
  · exact fun st hwf a ha hna b hb => evict_le_kept st hwf a ha hna b hb
  · exact fun st hwf => evict_totalBytes st hwf
  · exact ⟨by decide, by decide, by decide, by decide, by decide, by decide⟩

/-- Witness for C3's quantified part on a one-entry cache. -/
theorem claim_C3_witness :
    alookup 5 (FitFileCache.get ⟨[(5, buf400)], [(5, ⟨400, 0⟩)], 1024⟩ 5 7).2.index
      = some ⟨400, 7⟩ :=
  claim_C3.1 ⟨[(5, buf400)], [(5, ⟨400, 0⟩)], 1024⟩ 5 7 ⟨400, 0⟩ buf400
    (by decide) (by decide)

/-- C8: a `get` whose index entry exists but whose file has vanished does
not throw: it misses, removes the stale entry (leaving everything else
untouched), and afterwards the cache behaves as if the entry never
existed. -/
theorem claim_C8 (st : CacheState) (id now : ℕ) (e : CacheEntry)
    (h1 : alookup id st.index = some e) (h2 : alookup id st.fsFiles = none) :
    (FitFileCache.get st id now).1 = none ∧
    alookup id (FitFileCache.get st id now).2.index = none ∧
    (FitFileCache.get st id now).2.fsFiles = st.fsFiles ∧
    (FitFileCache.get st id now).2.maxBytes = st.maxBytes ∧
    (∀ j, j ≠ id → alookup j (FitFileCache.get st id now).2.index = alookup j st.index) ∧
    (∀ now2, FitFileCache.get (FitFileCache.get st id now).2 id now2
      = (none, (FitFileCache.get st id now).2)) := by
  rw [get_stale_eq st id now e h1 h2]
  refine ⟨rfl, ?_, rfl, rfl, ?_, ?_⟩
  · exact alookup_filter_ne_self id st.index
  · intro j hj
    exact alookup_filter_other id j st.index hj
  · intro now2
    exact get_miss_eq _ id now2 (alookup_filter_ne_self id st.index)

/-- Witness for C8: a one-entry index whose backing file is gone. -/
theorem claim_C8_witness :
    (FitFileCache.get ⟨[], [(5, ⟨3, 0⟩)], 100⟩ 5 7).1 = none ∧
    alookup 5 (FitFileCache.get ⟨[], [(5, ⟨3, 0⟩)], 100⟩ 5 7).2.index = none ∧
    (FitFileCache.get ⟨[], [(5, ⟨3, 0⟩)], 100⟩ 5 7).2.fsFiles
      = (⟨[], [(5, ⟨3, 0⟩)], 100⟩ : CacheState).fsFiles ∧
    (FitFileCache.get ⟨[], [(5, ⟨3, 0⟩)], 100⟩ 5 7).2.maxBytes
      = (⟨[], [(5, ⟨3, 0⟩)], 100⟩ : CacheState).maxBytes ∧
    (∀ j, j ≠ 5 → alookup j (FitFileCache.get ⟨[], [(5, ⟨3, 0⟩)], 100⟩ 5 7).2.index
      = alookup j (⟨[], [(5, ⟨3, 0⟩)], 100⟩ : CacheState).index) ∧
    (∀ now2, FitFileCache.get (FitFileCache.get ⟨[], [(5, ⟨3, 0⟩)], 100⟩ 5 7).2 5 now2
      = (none, (FitFileCache.get ⟨[], [(5, ⟨3, 0⟩)], 100⟩ 5 7).2)) :=
  claim_C8 ⟨[], [(5, ⟨3, 0⟩)], 100⟩ 5 7 ⟨3, 0⟩ (by decide) (by decide)

/-- C10: after every completed `set` the indexed bytes total at most
`maxBytes`, unconditionally; a buffer alone exceeding the budget leaves the
cache without that entry and the following `get` misses. -/
theorem claim_C10 (st : CacheState) (id : ℕ) (buf : Bytes) (now : ℕ) (hwf : st.WF) :
    totalBytes (FitFileCache.set st id buf now).index ≤ st.maxBytes ∧
    (st.maxBytes < buf.length →
      alookup id (FitFileCache.set st id buf now).index = none ∧
      ∀ now2, (FitFileCache.get (FitFileCache.set st id buf now) id now2).1 = none) := by
  have hwf1 : (⟨mapSet id buf st.fsFiles, mapSet id ⟨buf.length, now⟩ st.index,
      st.maxBytes⟩ : CacheState).WF := mapSet_WF id _ st.index hwf
  have hset : FitFileCache.set st id buf now = FitFileCache.evict
      ⟨mapSet id buf st.fsFiles, mapSet id ⟨buf.length, now⟩ st.index, st.maxBytes⟩ := rfl
  have hpart1 : totalBytes (FitFileCache.set st id buf now).index ≤ st.maxBytes := by
    rw [hset]
    exact evict_totalBytes _ hwf1
  refine ⟨hpart1, fun hbig => ?_⟩
  have hnone : alookup id (FitFileCache.set st id buf now).index = none := by
    cases hlook : alookup id (FitFileCache.set st id buf now).index with
    | none => rfl
    | some e =>
      exfalso
      have hmem' : (id, e) ∈ (FitFileCache.set st id buf now).index :=
        alookup_some_mem _ _ _ hlook
      have hsz : e.size ≤ totalBytes (FitFileCache.set st id buf now).index :=
        size_le_totalBytes _ _ hmem'
      have hmem1 : (id, e) ∈ mapSet id ⟨buf.length, now⟩ st.index := by
        rw [hset] at hmem'
        unfold FitFileCache.evict at hmem'
        by_cases hle : totalBytes (mapSet id ⟨buf.length, now⟩ st.index) ≤ st.maxBytes
        · rw [if_pos hle] at hmem'
          exact hmem'
        · rw [if_neg hle] at hmem'
          exact (List.mem_filter.mp hmem').1
      rcases mem_mapSet id _ st.index (id, e) hmem1 with hc1 | ⟨_, hc3⟩
      · have he : e = ⟨buf.length, now⟩ := congrArg Prod.snd hc1
        rw [he] at hsz
        simp only at hsz
        omega
      · exact hc3 rfl
  exact ⟨hnone, fun now2 => by rw [get_miss_eq _ id now2 hnone]⟩

/-- Witness for C10: an empty budget-0 cache receiving a 1-byte buffer. -/
theorem claim_C10_witness :
    (⟨[], [], 0⟩ : CacheState).WF ∧
    (totalBytes (FitFileCache.set ⟨[], [], 0⟩ 4 [9] 1).index ≤ 0 ∧
    (0 < ([9] : Bytes).length →
      alookup 4 (FitFileCache.set ⟨[], [], 0⟩ 4 [9] 1).index = none ∧
      ∀ now2, (FitFileCache.get (FitFileCache.set ⟨[], [], 0⟩ 4 [9] 1) 4 now2).1 = none)) :=
  ⟨by unfold CacheState.WF; decide,
    claim_C10 ⟨[], [], 0⟩ 4 [9] 1 (by unfold CacheState.WF; decide)⟩

-- --- Interval comparison (`compareIntervals` in src/mcp/tools/workouts.ts) ---

/-- Lap aggregates parsed from a decoded activity file. -/
structure WorkoutLap where
  lapNumber : ℕ
  duration : Option ℚ
  distance : Option ℚ
  averageHeartRate : Option ℚ
  maxHeartRate : Option ℚ
  averagePower : Option ℚ
  maxPower : Option ℚ
  averageCadence : Option ℚ
  deriving DecidableEq, Repr

/-- The optional filters of `compare_intervals` (`durationTolerance`
defaults to 2 via the schema). -/
structure CompareArgs where
  minPower : Option ℚ
  targetDuration : Option ℚ
  durationTolerance : ℚ
  deriving DecidableEq, Repr

/-- `filterLaps`: `minPower` keeps laps with `(l.averagePower ?? 0) >=
minPower`; `targetDuration` keeps laps whose duration is within ±
`durationTolerance` (laps with no duration fail). -/
def filterLaps (laps : List WorkoutLap) (args : CompareArgs) : List WorkoutLap :=
  let f1 := match args.minPower with
    | none => laps
    | some t => laps.filter fun l => decide (t ≤ l.averagePower.getD 0)
  match args.targetDuration with
  | none => f1
  | some td => f1.filter fun l =>
      match l.duration with
      | none => false
      | some du => decide (|du - td| ≤ args.durationTolerance)

/-- The fields of a workout detail that `compareIntervals` reads. -/
structure WorkoutDetail where
  workoutId : ℕ
  title : Option String
  workoutDay : Option String
  completedDate : Option String
  deriving DecidableEq, Repr, Inhabited

structure LapValue where
  workoutId : ℕ
  title : Option String
  date : Option String
  avgPower : Option ℚ
  maxPower : Option ℚ
  avgCadence : Option ℚ
  duration : Option ℚ
  deriving DecidableEq, Repr

structure LapRow where
  lapNumber : ℕ
  values : List LapValue
  deriving DecidableEq, Repr

structure WorkoutSummaryResult where
  workoutId : ℕ
  title : Option String
  date : Option String
  lapCount : ℕ
  avgPower : Option ℤ
  minPower : Option ℚ
  maxPower : Option ℚ
  powerRange : Option ℚ
  avgCadence : Option ℤ
  totalDuration : ℚ
  deriving DecidableEq, Repr

structure CompareResult where
  laps : List LapRow
  summaries : List WorkoutSummaryResult
  warnings : List String
  deriving DecidableEq, Repr

/-- `buildSummary`: per-workout aggregates over the (filtered) laps. -/
def buildSummary (detail : WorkoutDetail) (laps : List WorkoutLap) :
    WorkoutSummaryResult :=
  let powers := laps.filterMap fun l => l.averagePower
  let avgPower : Option ℤ :=
    if 0 < powers.length then some (jsRound (powers.sum / (powers.length : ℚ))) else none
  let minPower : Option ℚ :=
    if 0 < powers.length then
      some (powers.foldl (fun a b => if b < a then b else a) (powers.getD 0 0)) else none
  let maxPower : Option ℚ :=
    if 0 < powers.length then
      some (powers.foldl (fun a b => if a < b then b else a) (powers.getD 0 0)) else none
  let powerRange : Option ℚ :=
    match minPower, maxPower with
    | some mn, some mx => some (mx - mn)
    | _, _ => none
  let cadences := laps.filterMap fun l => l.averageCadence
  let avgCadence : Option ℤ :=
    if 0 < cadences.length then some (jsRound (cadences.sum / (cadences.length : ℚ))) else none
  let totalDuration := laps.foldl (fun sum l => sum + l.duration.getD 0) 0
  { workoutId := detail.workoutId
    title := detail.title
    date := detail.completedDate.orElse fun _ => detail.workoutDay
    lapCount := laps.length
    avgPower := avgPower
    minPower := minPower
    maxPower := maxPower
    powerRange := powerRange
    avgCadence := avgCadence
    totalDuration := totalDuration }

/-- `Workout N (title): no FIT file available`. -/
def warnNoFile (d : WorkoutDetail) : String :=
  "Workout " ++ toString d.workoutId ++ " (" ++ d.title.getD "Untitled"
    ++ "): no FIT file available"

/-- `Workout N (title): FIT file contains no laps`. -/
def warnNoLaps (d : WorkoutDetail) : String :=
  "Workout " ++ toString d.workoutId ++ " (" ++ d.title.getD "Untitled"
    ++ "): FIT file contains no laps"

/-- `downloadActivityFile(id).catch(() => null)`: a rejected download is
converted to a null buffer. -/
def fitOf {Fit : Type} (download : ℕ → Except String (Option Fit)) (id : ℕ) :
    Option Fit :=
  match download id with
  | Except.ok b => b
  | Except.error _ => none

/-- One element of the first `Promise.all`: the metadata fetch is awaited
uncaught, the file download is caught to null. -/
def fetchOne {Fit : Type} (getDetails : ℕ → Except String WorkoutDetail)
    (download : ℕ → Except String (Option Fit)) (id : ℕ) :
    Except String (WorkoutDetail × Option Fit) := do
  let detail ← getDetails id
  pure (detail, fitOf download id)

/-- One element of the second `Promise.all`: parse laps (a null buffer
yields no laps plus a warning; a lap-less parse warns too), then filter. -/
def lapStep {Fit : Type} (parse : Fit → List WorkoutLap) (args : CompareArgs)
    (acc : List String × List (WorkoutDetail × List WorkoutLap))
    (pr : WorkoutDetail × Option Fit) :
    List String × List (WorkoutDetail × List WorkoutLap) :=
  match pr.2 with
  | some b =>
    ((if (parse b).length = 0 then acc.1 ++ [warnNoLaps pr.1] else acc.1),
      acc.2 ++ [(pr.1, filterLaps (parse b) args)])
  | none => (acc.1 ++ [warnNoFile pr.1], acc.2 ++ [(pr.1, filterLaps [] args)])

/-- Alignment and summary phase of `compareIntervals`: row count is the
maximum filtered-lap count, each row holds one value per workout (metric
fields absent when that workout has no lap at that index). -/
def compareCore (args : CompareArgs)
    (workoutLaps : List (WorkoutDetail × List WorkoutLap))
    (warnings : List String) : CompareResult :=
  let maxLaps := (workoutLaps.map fun w => w.2.length).foldl max 0
  let laps := (List.range maxLaps).map fun i =>
    { lapNumber := i + 1
      values := workoutLaps.map fun w =>
        { workoutId := w.1.workoutId
          title := w.1.title
          date := w.1.completedDate.orElse fun _ => w.1.workoutDay
          avgPower := (w.2[i]?).bind fun l => l.averagePower
          maxPower := (w.2[i]?).bind fun l => l.maxPower
          avgCadence := (w.2[i]?).bind fun l => l.averageCadence
          duration := (w.2[i]?).bind fun l => l.duration } }
  let summaries := workoutLaps.map fun w => buildSummary w.1 w.2
  { laps := laps, summaries := summaries, warnings := warnings }

/-- `compareIntervals` from `src/mcp/tools/workouts.ts`, with the client
and the FIT decoding supplied as function parameters. -/
def compareIntervals {Fit : Type}
    (getWorkoutDetails : ℕ → Except String WorkoutDetail)
    (downloadActivityFile : ℕ → Except String (Option Fit))
    (parseLapsFromFit : Fit → List WorkoutLap)
    (workoutIds : List ℕ) (args : CompareArgs) : Except String CompareResult := do
  let fetches ← workoutIds.mapM (fetchOne getWorkoutDetails downloadActivityFile)
  let res := fetches.foldl (lapStep parseLapsFromFit args) ([], [])
  pure (compareCore args res.2 res.1)

/-- `detail` of a workout whose metadata fetch succeeded. -/
def detailOf (getDetails : ℕ → Except String WorkoutDetail) (id : ℕ) :
    WorkoutDetail :=
  match getDetails id with
  | Except.ok d => d
  | Except.error _ => default

/-- Warnings contributed by one fetched workout. -/
def warnOf {Fit : Type} (parse : Fit → List WorkoutLap)
    (pr : WorkoutDetail × Option Fit) : List String :=
  match pr.2 with
  | some b => if (parse b).length = 0 then [warnNoLaps pr.1] else []
  | none => [warnNoFile pr.1]

/-- Filtered laps contributed by one fetched workout. -/
def lapsOf {Fit : Type} (parse : Fit → List WorkoutLap) (args : CompareArgs)
    (pr : WorkoutDetail × Option Fit) : WorkoutDetail × List WorkoutLap :=
  match pr.2 with
  | some b => (pr.1, filterLaps (parse b) args)
  | none => (pr.1, filterLaps [] args)

theorem filterLaps_nil (args : CompareArgs) : filterLaps [] args = [] := by
  unfold filterLaps
  cases args.minPower <;> cases args.targetDuration <;> simp

theorem mapM_fetchOne_ok {Fit : Type} (gd : ℕ → Except String WorkoutDetail)
    (dl : ℕ → Except String (Option Fit)) (ids : List ℕ)
    (hok : ∀ id ∈ ids, ∃ d, gd id = Except.ok d) :
    ids.mapM (fetchOne gd dl)
      = Except.ok (ids.map fun id => (detailOf gd id, fitOf dl id)) := by
  induction ids with
  | nil => rfl
  | cons id rest ih =>
    obtain ⟨d, hd⟩ := hok id (List.mem_cons_self id rest)
    have hdetail : detailOf gd id = d := by
      unfold detailOf
      rw [hd]
    have hfetch : fetchOne gd dl id = Except.ok (d, fitOf dl id) := by
      unfold fetchOne
      rw [hd]
      rfl
    rw [List.mapM_cons, hfetch]
    have ih2 := ih fun i hi => hok i (List.mem_cons_of_mem id hi)
    rw [ih2]
    show Except.ok _ = _
    rw [List.map_cons, hdetail]

theorem foldl_lapStep {Fit : Type} (parse : Fit → List WorkoutLap)
    (args : CompareArgs) (prs : List (WorkoutDetail × Option Fit)) :
    ∀ acc, prs.foldl (lapStep parse args) acc
      = (acc.1 ++ prs.flatMap (warnOf parse), acc.2 ++ prs.map (lapsOf parse args)) := by
  induction prs with
  | nil =>
    intro acc
    simp
  | cons pr rest ih =>
    intro acc
    rw [List.foldl_cons]
    have hstep : lapStep parse args acc pr
        = (acc.1 ++ warnOf parse pr, acc.2 ++ [lapsOf parse args pr]) := by
      unfold lapStep warnOf lapsOf
      cases hpr : pr.2 with
      | some b =>
        by_cases hz : (parse b).length = 0 <;> simp [hz]
      | none => rfl
    rw [hstep, ih]
    rw [List.flatMap_cons, List.map_cons]
    simp [List.append_assoc]

theorem compareIntervals_closed {Fit : Type} (gd : ℕ → Except String WorkoutDetail)
    (dl : ℕ → Except String (Option Fit)) (parse : Fit → List WorkoutLap)
    (ids : List ℕ) (args : CompareArgs)
    (hok : ∀ id ∈ ids, ∃ d, gd id = Except.ok d) :
    compareIntervals gd dl parse ids args = Except.ok
      (compareCore args
        ((ids.map fun id => (detailOf gd id, fitOf dl id)).map (lapsOf parse args))
        ((ids.map fun id => (detailOf gd id, fitOf dl id)).flatMap (warnOf parse))) := by
  unfold compareIntervals
  rw [mapM_fetchOne_ok gd dl ids hok]
  show Except.ok _ = _
  rw [foldl_lapStep parse args _ ([], [])]
  simp

/-- Details used in concrete interval-comparison examples. -/
def detailA : WorkoutDetail := ⟨1, some "A", some "2024-01-01", none⟩

/-- C4 counterexample: a metadata fetch failure for one workout aborts the
whole `compareIntervals` call (only the activity-file download is caught),
returning no rows, summaries or warnings for the other workouts. -/
theorem claim_C4_counterexample :
    @compareIntervals Unit
      (fun id => if id = 2 then Except.error "network error" else Except.ok detailA)
      (fun _ => Except.ok none)
      (fun _ => [])
      [1, 2] ⟨none, none, 2⟩ = Except.error "network error" := rfl

/-- C4 (amended): when every workout's metadata fetch succeeds, a fetch
failure of the activity-file bytes for any single workout does not abort
the others: the call returns rows with one value per workout and one
summary per workout, while the failed workout gets a "no FIT file
available" warning and contributes zero laps.  (A metadata fetch failure,
by contrast, aborts the whole call.) -/
theorem claim_C4 {Fit : Type} (gd : ℕ → Except String WorkoutDetail)
    (dl : ℕ → Except String (Option Fit)) (parse : Fit → List WorkoutLap)
    (ids : List ℕ) (args : CompareArgs)
    (hok : ∀ id ∈ ids, ∃ d, gd id = Except.ok d) :
    ∃ res, compareIntervals gd dl parse ids args = Except.ok res ∧
      res.summaries.length = ids.length ∧
      (∀ row ∈ res.laps, row.values.length = ids.length) ∧
      (∀ i (hi : i < ids.length) (d : WorkoutDetail),
        gd ids[i] = Except.ok d →
        fitOf dl ids[i] = none →
        warnNoFile d ∈ res.warnings ∧
        ∃ s, res.summaries[i]? = some s ∧ s.lapCount = 0 ∧
          s.workoutId = d.workoutId) := by
  refine ⟨_, compareIntervals_closed gd dl parse ids args hok, ?_, ?_, ?_⟩
  · simp [compareCore]
  · intro row hrow
    simp only [compareCore] at hrow
    obtain ⟨i, _, hrow⟩ := List.mem_map.mp hrow
    rw [← hrow]
    simp
  · intro i hi d hd hfit
    have hdet : detailOf gd ids[i] = d := by
      unfold detailOf
      rw [hd]
    have hpr : (detailOf gd ids[i], fitOf dl ids[i])
        = (d, (none : Option Fit)) := by
      rw [hdet, hfit]
    constructor
    · show warnNoFile d ∈ (compareCore _ _ _).warnings
      simp only [compareCore]
      refine List.mem_flatMap.mpr ⟨(d, none), ?_, ?_⟩
      · exact List.mem_map.mpr ⟨ids[i], List.getElem_mem hi, hpr⟩
      · unfold warnOf
        exact List.mem_singleton.mpr rfl
    · refine ⟨buildSummary d (filterLaps [] args), ?_, ?_, rfl⟩
      · show (compareCore _ _ _).summaries[i]? = _
        simp only [compareCore]
        rw [List.getElem?_map, List.getElem?_map, List.getElem?_map,
          List.getElem?_eq_getElem hi]
        simp only [Option.map_some']
        rw [hpr]
        rfl
      · rw [show (buildSummary d (filterLaps [] args)).lapCount
            = (filterLaps [] args).length from rfl, filterLaps_nil]
        rfl

/-- Witness for C4: two workouts, the first of which has no activity file. -/
theorem claim_C4_witness :
    (∀ id ∈ ([1, 2] : List ℕ), ∃ d,
      (fun _ => Except.ok detailA : ℕ → Except String WorkoutDetail) id = Except.ok d) ∧
    ∃ res, @compareIntervals Unit (fun _ => Except.ok detailA)
        (fun id => if id = 1 then Except.error "boom" else Except.ok (some ()))
        (fun _ => ([⟨1, some 60, none, none, none, some 250, none, none⟩] : List WorkoutLap))
        [1, 2] ⟨none, none, 2⟩ = Except.ok res ∧
      res.summaries.length = ([1, 2] : List ℕ).length ∧
      (∀ row ∈ res.laps, row.values.length = ([1, 2] : List ℕ).length) ∧
      (∀ i (hi : i < ([1, 2] : List ℕ).length) (d : WorkoutDetail),
        (fun _ => Except.ok detailA : ℕ → Except String WorkoutDetail)
          (([1, 2] : List ℕ)[i]) = Except.ok d →
        fitOf (fun id => if id = 1 then Except.error "boom" else Except.ok (some ()))
          (([1, 2] : List ℕ)[i]) = none →
        warnNoFile d ∈ res.warnings ∧
        ∃ s, res.summaries[i]? = some s ∧ s.lapCount = 0 ∧
          s.workoutId = d.workoutId) :=
  ⟨fun _ _ => ⟨detailA, rfl⟩,
    @claim_C4 Unit (fun _ => Except.ok detailA)
      (fun id => if id = 1 then Except.error "boom" else Except.ok (some ()))
      (fun _ => ([⟨1, some 60, none, none, none, some 250, none, none⟩] : List WorkoutLap))
      [1, 2] ⟨none, none, 2⟩ (fun _ _ => ⟨detailA, rfl⟩)⟩

/-- A lap carrying no average power. -/
def lapNoPower : WorkoutLap := ⟨1, none, none, none, none, none, none, none⟩

/-- C7 counterexample: with threshold 0, a lap with no average power passes
the `minPower` filter (the code reads missing power as 0 and `0 ≥ 0`),
contradicting "every lap with no average power fails the filter" for every
threshold. -/
theorem claim_C7_counterexample :
    filterLaps [lapNoPower] ⟨some 0, none, 2⟩ = [lapNoPower] := by decide

/-- C7 (amended): under a `minPower` filter a lap is kept iff its average
power, read as 0 when missing, is at least the threshold; consequently for
every positive threshold a lap with no average power fails, and a lap is
kept iff its average power is present and at least the threshold. -/
theorem claim_C7 (t tol : ℚ) (laps : List WorkoutLap) (l : WorkoutLap) :
    (l ∈ filterLaps laps ⟨some t, none, tol⟩ ↔
      l ∈ laps ∧ t ≤ l.averagePower.getD 0) ∧
    (0 < t → l.averagePower = none → l ∉ filterLaps laps ⟨some t, none, tol⟩) ∧
    (0 < t → (l ∈ filterLaps laps ⟨some t, none, tol⟩ ↔
      l ∈ laps ∧ ∃ p, l.averagePower = some p ∧ t ≤ p)) := by
  have hbase : l ∈ filterLaps laps ⟨some t, none, tol⟩ ↔
      l ∈ laps ∧ t ≤ l.averagePower.getD 0 := by
    unfold filterLaps
    simp [List.mem_filter]
  refine ⟨hbase, ?_, ?_⟩
  · intro ht hnone hmem
    rcases hbase.mp hmem with ⟨_, hle⟩
    rw [hnone] at hle
    simp only [Option.getD_none] at hle
    linarith
  · intro ht
    rw [hbase]
    constructor
    · rintro ⟨hmem, hle⟩
      refine ⟨hmem, ?_⟩
      cases hap : l.averagePower with
      | none =>
        rw [hap] at hle
        simp only [Option.getD_none] at hle
        linarith
      | some p =>
        rw [hap] at hle
        simp only [Option.getD_some] at hle
        exact ⟨p, rfl, hle⟩
    · rintro ⟨hmem, p, hap, hle⟩
      refine ⟨hmem, ?_⟩
      rw [hap]
      simpa using hle

/-- Witness for C7 at threshold 5: the no-power lap fails the filter. -/
theorem claim_C7_witness :
    lapNoPower ∉ filterLaps [lapNoPower] ⟨some 5, none, 2⟩ :=
  (claim_C7 5 2 [lapNoPower] lapNoPower).2.1 (by norm_num) rfl
